import Mathlib

/-!
Verification development for the `cloudflare-cors-anywhere` worker
(`src/index.js`).  The worker's logic is shallowly embedded: the pattern
matcher (`wildcardToRegex` / `isMatched`), the access-policy engine
(`isAccessAllowed`), the request-header filter, the response-header
composer and the fetch handler are translated into executable Lean
definitions, and the platform facilities the code leans on (the
JavaScript `RegExp` engine on the regex subset the worker can produce,
`Headers`, `JSON.parse` / `JSON.stringify`, `decodeURIComponent`,
`Object.entries`) are modelled faithfully enough to decide the claims.

Platform-model notes (each is a property of the JS runtime, not of the
worker's own lines):
* `Headers` normalises header names to lower case; iteration yields the
  stored pairs; `set` with `null` stores the string "null" (WebIDL
  ByteString conversion).
* The regex model covers the constructs the worker can generate:
  literals, escaped punctuation, `.`, `^`, `$` and the quantifiers
  `*`, `+`, `?` on single-character atoms.  A pattern outside this
  subset is modelled as matching nothing (the platform would throw on a
  genuinely invalid pattern; no claim depends on such a pattern).
  The `i` flag is modelled as comparing lower-cased characters, and `.`
  excludes the four JavaScript line terminators.
* `JSON.parse` is a strict JSON reader (numbers are kept as their
  lexeme — no claim inspects numeric custom-header values);
  `JSON.stringify` mirrors JavaScript's escaping.
* `Object.entries` of a string yields its index/character pairs, which
  is what the worker does with an unparsable `x-cors-headers` value.
-/

/-! ## Characters and strings -/

def charIEq (a b : Char) : Bool := a.toLower == b.toLower

def lowerChars (cs : List Char) : List Char := cs.map Char.toLower

def lowerStr (s : String) : String := String.mk (lowerChars s.data)

def strStarts (s pfx : String) : Bool := pfx.data.isPrefixOf s.data

/-- Does `sub` occur (contiguously) inside `s`?  Scans every suffix. -/
def hasSubScan (sub : List Char) : List Char → Bool
  | [] => sub.isEmpty
  | d :: s' => sub.isPrefixOf (d :: s') || hasSubScan sub s'

def strHasSub (s sub : String) : Bool := hasSubScan sub.data s.data

/-- JavaScript `Array.prototype.join(sep)`. -/
def sepJoin (sep : String) : List String → String
  | [] => ""
  | x :: rest => x ++ (match rest with | [] => "" | _ => sep) ++ sepJoin sep rest

def optOr (a b : Option String) : Option String :=
  match a with
  | some v => some v
  | none => b

/-! ## A model of the JavaScript regex engine, on the subset the worker
can produce.  A pattern is parsed into a list of tokens: an atom
(literal character, `.`, `^` or `$`) together with a quantifier. -/

inductive RAtom where
  | lit (c : Char)
  | dot
  | anchorStart
  | anchorEnd
deriving DecidableEq

inductive RQuant where
  | one
  | star
  | plus
  | opt
deriving DecidableEq

abbrev RTok := RAtom × RQuant

def isQuantChar (c : Char) : Bool := c = '*' || c = '+' || c = '?'

def quantOf (c : Char) : RQuant :=
  if c = '*' then RQuant.star else if c = '+' then RQuant.plus else RQuant.opt

/-- Characters that open a construct outside the modelled subset
(groups, classes, alternation, braces). -/
def isUnsupportedChar (c : Char) : Bool :=
  c = '(' || c = ')' || c = '[' || c = ']' || c = '\x7b' || c = '\x7d' || c = '|'

/-- Parse a regex source string into tokens.  `none` = outside the
modelled subset (modelled as matching nothing).  Each call consumes at
least one character, so fuel larger than the input length suffices. -/
def parseAtomsF : Nat → List Char → Option (List RTok)
  | 0, _ => none
  | _ + 1, [] => some []
  | f + 1, c :: rest =>
    if c = '\\' then
      match rest with
      | [] => none
      | e :: r1 =>
        if e.isAlphanum then none
        else
          match r1 with
          | q :: r2 =>
            if isQuantChar q then
              (parseAtomsF f r2).map (fun ts => (RAtom.lit e, quantOf q) :: ts)
            else
              (parseAtomsF f r1).map (fun ts => (RAtom.lit e, RQuant.one) :: ts)
          | [] => some [(RAtom.lit e, RQuant.one)]
    else if isUnsupportedChar c then none
    else if isQuantChar c then none
    else if c = '^' || c = '$' then
      let a := if c = '^' then RAtom.anchorStart else RAtom.anchorEnd
      match rest with
      | q :: _ =>
        if isQuantChar q then none
        else (parseAtomsF f rest).map (fun ts => (a, RQuant.one) :: ts)
      | [] => some [(a, RQuant.one)]
    else
      let a := if c = '.' then RAtom.dot else RAtom.lit c
      match rest with
      | q :: r2 =>
        if isQuantChar q then
          (parseAtomsF f r2).map (fun ts => (a, quantOf q) :: ts)
        else
          (parseAtomsF f rest).map (fun ts => (a, RQuant.one) :: ts)
      | [] => some [(a, RQuant.one)]

def parseAtoms (cs : List Char) : Option (List RTok) :=
  parseAtomsF (cs.length + 1) cs

/-- JavaScript `.` (no `s` flag): any character except the four line
terminators. -/
def dotOk (c : Char) : Bool :=
  !(c = '\n' || c = '\r' || c = Char.ofNat 0x2028 || c = Char.ofNat 0x2029)

/-- Character comparison, case-folded when the `i` flag is set. -/
def cEq (ci : Bool) (a b : Char) : Bool := if ci then charIEq a b else a == b

/-- Can atom `a` consume the single character `d`? -/
def atomOnce (ci : Bool) (a : RAtom) (d : Char) : Bool :=
  match a with
  | RAtom.lit c => cEq ci c d
  | RAtom.dot => dotOk d
  | _ => false

/-- Match tokens against a subject position.  `atS` records whether the
position is the start of the whole subject (for `^`).  Fuel strictly
larger than `toks.length + s.length` is always sufficient. -/
def matchToks (ci : Bool) : Nat → List RTok → Bool → List Char → Bool
  | 0, _, _, _ => false
  | _ + 1, [], _, _ => true
  | f + 1, (RAtom.anchorStart, RQuant.one) :: ts, atS, s =>
      atS && matchToks ci f ts atS s
  | f + 1, (RAtom.anchorEnd, RQuant.one) :: ts, atS, s =>
      s.isEmpty && matchToks ci f ts atS s
  | _ + 1, (RAtom.lit _, RQuant.one) :: _, _, [] => false
  | f + 1, (RAtom.lit c, RQuant.one) :: ts, _, d :: s2 =>
      cEq ci c d && matchToks ci f ts false s2
  | _ + 1, (RAtom.dot, RQuant.one) :: _, _, [] => false
  | f + 1, (RAtom.dot, RQuant.one) :: ts, _, d :: s2 =>
      dotOk d && matchToks ci f ts false s2
  | f + 1, (a, RQuant.star) :: ts, atS, s =>
      matchToks ci f ts atS s ||
      (match s with
       | [] => false
       | d :: s2 => atomOnce ci a d && matchToks ci f ((a, RQuant.star) :: ts) false s2)
  | f + 1, (a, RQuant.plus) :: ts, _, s =>
      (match s with
       | [] => false
       | d :: s2 => atomOnce ci a d && matchToks ci f ((a, RQuant.star) :: ts) false s2)
  | f + 1, (a, RQuant.opt) :: ts, atS, s =>
      matchToks ci f ts atS s ||
      (match s with
       | [] => false
       | d :: s2 => atomOnce ci a d && matchToks ci f ts false s2)

def tokFuel (ts : List RTok) (s : List Char) : Nat := ts.length + s.length + 1

/-- Try a match at every start position after the first. -/
def searchAux (ci : Bool) (ts : List RTok) : List Char → Bool
  | [] => false
  | _ :: s' => matchToks ci (tokFuel ts s') ts false s' || searchAux ci ts s'

/-- JavaScript `RegExp.prototype.test`: unanchored search. -/
def searchToks (ci : Bool) (ts : List RTok) (s : List Char) : Bool :=
  matchToks ci (tokFuel ts s) ts true s || searchAux ci ts s

/-- `new RegExp(pat, flags).test(subject)` on the modelled subset
(`ci` = the `i` flag). -/
def jsTestL (ci : Bool) (pat : List Char) (s : List Char) : Bool :=
  match parseAtoms pat with
  | none => false
  | some ts => searchToks ci ts s

def jsRegexTest (ci : Bool) (pat subject : String) : Bool :=
  jsTestL ci pat.data subject.data

/-! ## The worker's pattern matcher (src/index.js lines 24–56) -/

/-- The regex metacharacters the worker escapes:
`pattern.replace(/[.+^${}()|[\]\\]/g, '\\$&')`.  Note `?` is not in
this class. -/
def isEscapedMeta (c : Char) : Bool :=
  c = '.' || c = '+' || c = '^' || c = '$' || c = '\x7b' || c = '\x7d' ||
  c = '(' || c = ')' || c = '|' || c = '[' || c = ']' || c = '\\'

def escWildChar (c : Char) : List Char :=
  if isEscapedMeta c then ['\\', c]
  else if c = '*' then ['.', '*']
  else [c]

def escWildList (cs : List Char) : List Char :=
  match cs with
  | [] => []
  | c :: rest => escWildChar c ++ escWildList rest

/-- `wildcardToRegex` (src/index.js lines 24–29): escape the regex
metacharacters of the class above, then turn each `*` into `.*`. -/
def wildcardToRegex (pattern : String) : String :=
  String.mk (escWildList pattern.data)

/-- One pattern of `isMatched`'s `listing.some(...)` callback
(src/index.js lines 47–55): a pattern containing `*` is wildcard-translated,
anchored with `^...$` and tested with the `i` flag; any other pattern is
used directly as an unanchored case-insensitive regex. -/
def singlePatternTest (pattern uri : String) : Bool :=
  if pattern.data.contains '*' then
    jsTestL true ('^' :: (escWildList pattern.data ++ ['$'])) uri.data
  else
    jsTestL true pattern.data uri.data

/-- `isMatched(uri, listing)` (src/index.js lines 42–56).  `uri` is
`Option String` (`none` = JS `null`); the empty string is falsy in JS,
so it takes the same early return. -/
def isMatched (uri : Option String) (listing : List String) : Bool :=
  match uri with
  | none => listing.isEmpty
  | some s =>
    if s.isEmpty || listing.isEmpty then listing.isEmpty
    else listing.any (fun pattern => singlePatternTest pattern s)

/-! ## Spec-side wildcard matching (for claim C2)

The spec describes wildcard matching as: escape all regex
metacharacters except `*`, replace each `*` by "zero or more
characters", anchor both ends, compare case-insensitively.  That is a
glob matcher: non-`*` pattern characters are literal and `*` spans a
gap.  Two variants are defined: `specGlobAnyT` lets a gap span
arbitrary characters (the claim's literal words) and `specGlobT` lets
it span anything but a line terminator (what `.*` actually does). -/

/-- Modelled from the spec's words (claim C2 as stated): anchored glob
match, every non-`*` character literal, `*` = zero or more arbitrary
characters, case-insensitive. -/
def specGlobAnyT : Nat → List Char → List Char → Bool
  | 0, _, _ => false
  | _ + 1, [], s => s.isEmpty
  | f + 1, c :: p, s =>
    if c = '*' then
      specGlobAnyT f p s ||
      (match s with
       | [] => false
       | _ :: s' => specGlobAnyT f (c :: p) s')
    else
      match s with
      | [] => false
      | d :: s' => charIEq c d && specGlobAnyT f p s'

/-- Modelled from the spec's words, amended: as `specGlobAnyT` but a
`*` gap cannot span a line terminator (JavaScript `.` semantics). -/
def specGlobT : Nat → List Char → List Char → Bool
  | 0, _, _ => false
  | _ + 1, [], s => s.isEmpty
  | f + 1, c :: p, s =>
    if c = '*' then
      specGlobT f p s ||
      (match s with
       | [] => false
       | d :: s' => dotOk d && specGlobT f (c :: p) s')
    else
      match s with
      | [] => false
      | d :: s' => charIEq c d && specGlobT f p s'

def specWildcardMatchClaimed (pattern subject : String) : Bool :=
  specGlobAnyT (pattern.data.length + subject.data.length + 1) pattern.data subject.data

def specWildcardMatch (pattern subject : String) : Bool :=
  specGlobT (pattern.data.length + subject.data.length + 1) pattern.data subject.data

/-! ## Matcher lemmas -/

def startTok : RTok := (RAtom.anchorStart, RQuant.one)

def endTok : RTok := (RAtom.anchorEnd, RQuant.one)

/-- Tokens of a wildcard-translated pattern body (`*` becomes `.*`,
everything else a literal). -/
def bodyToks (cs : List Char) : List RTok :=
  cs.map (fun c => if c = '*' then (RAtom.dot, RQuant.star) else (RAtom.lit c, RQuant.one))

def litToks (cs : List Char) : List RTok :=
  cs.map (fun c => (RAtom.lit c, RQuant.one))

theorem matchToks_start_false (ci : Bool) (ts : List RTok) (f : Nat) (s : List Char) :
    matchToks ci f (startTok :: ts) false s = false := by
  cases f <;> simp [matchToks, startTok]

theorem searchAux_start (ci : Bool) (ts : List RTok) (s : List Char) :
    searchAux ci (startTok :: ts) s = false := by
  induction s with
  | nil => rfl
  | cons d s' ih => simp [searchAux, matchToks_start_false, ih]

theorem matchToks_litToks (L : List Char) : ∀ (f : Nat) (s : List Char) (atS : Bool),
    L.length + s.length < f →
    matchToks false f (litToks L) atS s = L.isPrefixOf s := by
  induction L with
  | nil =>
    intro f s atS hf
    cases f with
    | zero => omega
    | succ f => simp [matchToks, litToks, List.isPrefixOf]
  | cons c L ih =>
    intro f s atS hf
    cases f with
    | zero => omega
    | succ f =>
      cases s with
      | nil => simp [matchToks, litToks, List.isPrefixOf]
      | cons d s' =>
        simp only [litToks, List.map_cons] at *
        have hrec := ih f s' false (by simp at hf ⊢; omega)
        simp [matchToks, List.isPrefixOf, cEq, litToks, hrec]

theorem isPrefixOf_nil_right (L : List Char) :
    L.isPrefixOf ([] : List Char) = L.isEmpty := by
  cases L <;> rfl

/-- Anchored literal tokens test a prefix. -/
theorem searchToks_anchored_lits (L s : List Char) :
    searchToks false (startTok :: litToks L) s = L.isPrefixOf s := by
  unfold searchToks
  rw [searchAux_start]
  have h1 : tokFuel (startTok :: litToks L) s = (litToks L).length + s.length + 2 := by
    simp [tokFuel]
    omega
  rw [h1]
  have h2 : matchToks false ((litToks L).length + s.length + 2) (startTok :: litToks L) true s =
      matchToks false ((litToks L).length + s.length + 1) (litToks L) true s := by
    simp [matchToks, startTok]
  rw [h2, matchToks_litToks L _ s true (by simp [litToks])]
  simp

/-- Unanchored literal tokens test substring occurrence. -/
theorem searchToks_lits (L s : List Char) :
    searchToks false (litToks L) s = hasSubScan L s := by
  have aux : ∀ s', searchAux false (litToks L) s' =
      (match s' with | [] => false | _ :: s2 => hasSubScan L s2) := by
    intro s'
    induction s' with
    | nil => rfl
    | cons d s2 ih =>
      simp only [searchAux]
      rw [matchToks_litToks L _ s2 false (by simp [litToks, tokFuel]), ih]
      cases s2 with
      | nil => simp [hasSubScan, isPrefixOf_nil_right]
      | cons e s3 => simp [hasSubScan]
  unfold searchToks
  rw [aux s, matchToks_litToks L _ s true (by simp [litToks, tokFuel])]
  cases s with
  | nil => simp [hasSubScan, isPrefixOf_nil_right]
  | cons d s2 => simp [hasSubScan]

theorem meta_not_alphanum (c : Char) (h : isEscapedMeta c = true) :
    c.isAlphanum = false := by
  simp only [isEscapedMeta, Bool.or_eq_true, decide_eq_true_eq, or_assoc] at h
  rcases h with h | h | h | h | h | h | h | h | h | h | h | h <;> subst h <;> decide

theorem notMeta_not_unsupported (c : Char) (h : isEscapedMeta c = false) :
    isUnsupportedChar c = false := by
  simp only [isEscapedMeta, Bool.or_eq_false_iff, decide_eq_false_iff_not] at h
  simp only [isUnsupportedChar, Bool.or_eq_false_iff, decide_eq_false_iff_not]
  tauto

/-- The wildcard translation of a `?`-free pattern (with the closing
`$` appended) never starts with a quantifier character. -/
theorem escHead_not_quant (cs : List Char) (hq : '?' ∉ cs) :
    ∃ h t, escWildList cs ++ ['$'] = h :: t ∧ isQuantChar h = false := by
  cases cs with
  | nil => exact ⟨'$', [], rfl, by decide⟩
  | cons c cs' =>
    simp only [escWildList, escWildChar]
    by_cases hm : isEscapedMeta c = true
    · exact ⟨'\\', c :: (escWildList cs' ++ ['$']), by simp [hm], by decide⟩
    · by_cases hs : c = '*'
      · exact ⟨'.', '*' :: (escWildList cs' ++ ['$']), by simp [hs, isEscapedMeta], by decide⟩
      · refine ⟨c, escWildList cs' ++ ['$'], by simp [hm, hs], ?_⟩
        have hne : c ≠ '?' := by intro h; exact hq (h ▸ List.mem_cons_self c cs')
        have hplus : c ≠ '+' := by
          intro h
          rw [h] at hm
          simp [isEscapedMeta] at hm
        simp [isQuantChar, hs, hne, hplus]

/-- Parsing the wildcard-translated body (plus closing `$`) of a
`?`-free pattern yields one token per pattern character plus the end
anchor. -/
theorem parseAtomsF_escWild (cs : List Char) : ∀ (f : Nat), '?' ∉ cs →
    (escWildList cs ++ ['$']).length < f →
    parseAtomsF f (escWildList cs ++ ['$']) = some (bodyToks cs ++ [endTok]) := by
  induction cs with
  | nil =>
    intro f _ hf
    cases f with
    | zero => omega
    | succ f => simp [escWildList, parseAtomsF, bodyToks, endTok, isUnsupportedChar, isQuantChar]
  | cons c cs' ih =>
    intro f hq hf
    have hq' : '?' ∉ cs' := fun h => hq (List.mem_cons_of_mem c h)
    have hne : c ≠ '?' := fun h => hq (h ▸ List.mem_cons_self c cs')
    obtain ⟨hh, ht, heq, hhq⟩ := escHead_not_quant cs' hq'
    cases f with
    | zero => omega
    | succ f =>
      have hlen : (escWildList cs' ++ ['$']).length < f := by
        have hlb : 1 ≤ (escWildChar c).length := by
          unfold escWildChar
          split_ifs <;> simp
        have htot : (escWildList (c :: cs') ++ ['$']).length =
            (escWildChar c).length + (escWildList cs' ++ ['$']).length := by
          simp [escWildList]
        have hf' := hf
        rw [htot] at hf'
        omega
      have hrec := ih f hq' hlen
      by_cases hm : isEscapedMeta c = true
      · -- escaped: "\c" ++ rest
        have halpha := meta_not_alphanum c hm
        have hcs : c ≠ '*' := by
          intro h
          rw [h] at hm
          simp [isEscapedMeta] at hm
        have hshape : escWildList (c :: cs') ++ ['$'] =
            '\\' :: c :: (escWildList cs' ++ ['$']) := by
          simp [escWildList, escWildChar, hm]
        rw [hshape, heq]
        simp only [parseAtomsF, if_pos rfl, halpha, Bool.false_eq_true, if_false, hhq]
        rw [← heq, hrec]
        simp [bodyToks, hcs]
      · have hm' : isEscapedMeta c = false := by
          revert hm
          cases isEscapedMeta c <;> simp
        by_cases hs : c = '*'
        · -- '*' became ".*"
          subst hs
          have hshape : escWildList ('*' :: cs') ++ ['$'] =
              '.' :: '*' :: (escWildList cs' ++ ['$']) := by
            simp [escWildList, escWildChar, isEscapedMeta]
          rw [hshape]
          simp only [parseAtomsF]
          norm_num [isUnsupportedChar, isQuantChar, quantOf]
          rw [hrec]
          simp [bodyToks, quantOf]
        · -- plain character
          have hbs : c ≠ '\\' := by
            intro h
            rw [h] at hm'
            simp [isEscapedMeta] at hm'
          have hup := notMeta_not_unsupported c hm'
          have hplus : c ≠ '+' := by
            intro h
            rw [h] at hm'
            simp [isEscapedMeta] at hm'
          have hqc : isQuantChar c = false := by
            simp [isQuantChar, hs, hne, hplus]
          have hcaret : (decide (c = '^') || decide (c = '$')) = false := by
            have hc1 : c ≠ '^' := by
              intro h
              rw [h] at hm'
              simp [isEscapedMeta] at hm'
            have hc2 : c ≠ '$' := by
              intro h
              rw [h] at hm'
              simp [isEscapedMeta] at hm'
            simp [hc1, hc2]
          have hdot : c ≠ '.' := by
            intro h
            rw [h] at hm'
            simp [isEscapedMeta] at hm'
          have hshape : escWildList (c :: cs') ++ ['$'] = c :: (escWildList cs' ++ ['$']) := by
            simp [escWildList, escWildChar, hm', hs]
          rw [hshape, heq]
          simp only [parseAtomsF, if_neg hbs, hup, hqc, Bool.false_eq_true, if_false,
            hcaret, hhq, if_neg hdot]
          rw [← heq, hrec]
          simp [bodyToks, hs]

/-- The matcher on wildcard-body tokens agrees with the (newline-aware)
glob semantics. -/
theorem matchToks_glob : ∀ (f g : Nat) (cs s : List Char) (atS : Bool),
    cs.length + s.length < g → cs.length + 1 + s.length < f →
    matchToks true f (bodyToks cs ++ [endTok]) atS s = specGlobT g cs s := by
  intro f
  induction f with
  | zero => intro g cs s atS hg hf; omega
  | succ f ih =>
    intro g cs s atS hg hf
    cases g with
    | zero => omega
    | succ g =>
      cases cs with
      | nil =>
        cases s with
        | nil =>
          cases f with
          | zero => omega
          | succ f => simp [bodyToks, endTok, matchToks, specGlobT]
        | cons d s' => simp [bodyToks, endTok, matchToks, specGlobT]
      | cons c cs' =>
        by_cases hc : c = '*'
        · subst hc
          have hbody : bodyToks ('*' :: cs') ++ [endTok] =
              (RAtom.dot, RQuant.star) :: (bodyToks cs' ++ [endTok]) := by
            simp [bodyToks]
          rw [hbody]
          have h1 := ih g cs' s atS (by simp at hg ⊢; omega) (by simp at hf ⊢; omega)
          cases s with
          | nil => simp [matchToks, specGlobT, h1]
          | cons d s2 =>
            have h2 := ih g ('*' :: cs') s2 false (by simp at hg ⊢; omega)
              (by simp at hf ⊢; omega)
            rw [hbody] at h2
            simp [matchToks, specGlobT, h1, h2, atomOnce]
        · have hbody : bodyToks (c :: cs') ++ [endTok] =
              (RAtom.lit c, RQuant.one) :: (bodyToks cs' ++ [endTok]) := by
            simp [bodyToks, hc]
          rw [hbody]
          cases s with
          | nil => simp [matchToks, specGlobT, hc]
          | cons d s2 =>
            have h1 := ih g cs' s2 false (by simp at hg ⊢; omega) (by simp at hf ⊢; omega)
            simp [matchToks, specGlobT, hc, h1, cEq]

theorem jsTestL_some (ci : Bool) (pat s : List Char) (ts : List RTok)
    (h : parseAtoms pat = some ts) : jsTestL ci pat s = searchToks ci ts s := by
  unfold jsTestL
  rw [h]

theorem parseAtomsF_caret (f : Nat) (hh : Char) (ht : List Char)
    (hhq : isQuantChar hh = false) :
    parseAtomsF (f + 1) ('^' :: hh :: ht) =
      (parseAtomsF f (hh :: ht)).map (fun ts => (RAtom.anchorStart, RQuant.one) :: ts) := by
  have h1 : ('^' : Char) ≠ '\\' := by decide
  have h2 : isUnsupportedChar '^' = false := by decide
  have h3 : isQuantChar '^' = false := by decide
  simp only [parseAtomsF, if_neg h1, h2, h3, Bool.false_eq_true, if_false, hhq]
  norm_num

/-- Parsing the full anchored wildcard regex `^...$`. -/
theorem parseAtoms_wildcard (p : List Char) (hq : '?' ∉ p) :
    parseAtoms ('^' :: (escWildList p ++ ['$'])) =
      some (startTok :: (bodyToks p ++ [endTok])) := by
  obtain ⟨hh, ht, heq, hhq⟩ := escHead_not_quant p hq
  unfold parseAtoms
  have hlen : ('^' :: (escWildList p ++ ['$'])).length + 1 =
      ((escWildList p ++ ['$']).length + 1) + 1 := by simp
  rw [hlen, heq, parseAtomsF_caret _ hh ht hhq, ← heq,
    parseAtomsF_escWild p ((escWildList p ++ ['$']).length + 1) hq (by omega)]
  simp [startTok]

/-- The wildcard branch of `singlePatternTest` agrees with the
(amended) spec-side glob matcher on `?`-free patterns. -/
theorem singlePatternTest_glob (p s : String)
    (hstar : p.data.contains '*' = true) (hq : p.data.contains '?' = false) :
    singlePatternTest p s = specWildcardMatch p s := by
  have hq' : '?' ∉ p.data := by
    intro hm
    simp at hq
    exact hq hm
  unfold singlePatternTest
  rw [if_pos hstar]
  rw [jsTestL_some true _ s.data _ (parseAtoms_wildcard p.data hq')]
  unfold searchToks
  rw [searchAux_start]
  have hfuel : tokFuel (startTok :: (bodyToks p.data ++ [endTok])) s.data =
      ((bodyToks p.data ++ [endTok]).length + s.data.length + 1) + 1 := by
    simp [tokFuel]
    omega
  rw [hfuel]
  have hstep : matchToks true (((bodyToks p.data ++ [endTok]).length + s.data.length + 1) + 1)
      (startTok :: (bodyToks p.data ++ [endTok])) true s.data =
      matchToks true ((bodyToks p.data ++ [endTok]).length + s.data.length + 1)
        (bodyToks p.data ++ [endTok]) true s.data := by
    simp [matchToks, startTok]
  rw [hstep]
  rw [matchToks_glob _ (p.data.length + s.data.length + 1) p.data s.data true
    (by omega) (by simp [bodyToks])]
  simp [specWildcardMatch]

/-! ## The access-policy engine (src/index.js lines 59–83) -/

structure AccessLists where
  whitelistUrls : List String
  blacklistUrls : List String
  whitelistOrigins : List String
  blacklistOrigins : List String

/-- `isAccessAllowed(targetUrl, originHeader, accessLists)`
(src/index.js lines 59–83). -/
def isAccessAllowed (targetUrl : String) (originHeader : Option String)
    (lists : AccessLists) : Bool :=
  if lists.blacklistOrigins.length > 0 && isMatched originHeader lists.blacklistOrigins then
    false
  else if lists.blacklistUrls.length > 0 && isMatched (some targetUrl) lists.blacklistUrls then
    false
  else if lists.whitelistOrigins.length > 0 && !(isMatched originHeader lists.whitelistOrigins) then
    false
  else if lists.whitelistUrls.length > 0 && !(isMatched (some targetUrl) lists.whitelistUrls) then
    false
  else
    true

/-- C1: the four checks run in the order blacklistOrigins, blacklistUrls,
whitelistOrigins, whitelistUrls, the first failing check denying; the
result is allow exactly when all four pass, and an origin matching a
non-empty blacklistOrigins is denied even when it also matches a
non-empty whitelistOrigins (blacklist precedence). -/
theorem claim1_access_policy (targetUrl : String) (originHeader : Option String)
    (lists : AccessLists) :
    (isAccessAllowed targetUrl originHeader lists = true ↔
      (¬ (lists.blacklistOrigins ≠ [] ∧ isMatched originHeader lists.blacklistOrigins = true) ∧
       ¬ (lists.blacklistUrls ≠ [] ∧ isMatched (some targetUrl) lists.blacklistUrls = true) ∧
       (lists.whitelistOrigins ≠ [] → isMatched originHeader lists.whitelistOrigins = true) ∧
       (lists.whitelistUrls ≠ [] → isMatched (some targetUrl) lists.whitelistUrls = true))) ∧
    (lists.blacklistOrigins ≠ [] → isMatched originHeader lists.blacklistOrigins = true →
      isAccessAllowed targetUrl originHeader lists = false) ∧
    (lists.blacklistOrigins ≠ [] → lists.whitelistOrigins ≠ [] →
      isMatched originHeader lists.blacklistOrigins = true →
      isMatched originHeader lists.whitelistOrigins = true →
      isAccessAllowed targetUrl originHeader lists = false) := by
  unfold isAccessAllowed
  rcases lists with ⟨wu, bu, wo, bo⟩
  simp only [ne_eq]
  constructor
  · constructor
    · intro h
      by_cases hbo : bo = [] <;> by_cases hbu : bu = [] <;>
        by_cases hwo : wo = [] <;> by_cases hwu : wu = [] <;>
        simp_all [List.length_pos, List.isEmpty_iff]
    · intro ⟨h1, h2, h3, h4⟩
      by_cases hbo : bo = [] <;> by_cases hbu : bu = [] <;>
        by_cases hwo : wo = [] <;> by_cases hwu : wu = [] <;>
        simp_all [List.length_pos, List.isEmpty_iff]
  · constructor
    · intro hne hm
      have : 0 < bo.length := List.length_pos.mpr hne
      simp_all
    · intro hne _ hm _
      have : 0 < bo.length := List.length_pos.mpr hne
      simp_all

/-- C2, as stated, is false: the worker's escape class omits `?`, so a
`?` in a wildcard pattern acts as a zero-or-one quantifier instead of a
literal, and `.*` does not span a line terminator.  Concretely,
pattern `ab?*` matches subject `a` under the code but not under the
claim's translation, and pattern `a*b` fails to match `a\nb` under the
code while the claim's "zero or more arbitrary characters" matches. -/
theorem claim2_wildcard_translation_cex :
    singlePatternTest "ab?*" "a" = true ∧
    specWildcardMatchClaimed "ab?*" "a" = false ∧
    singlePatternTest "a*b" (String.mk ['a', '\n', 'b']) = false ∧
    specWildcardMatchClaimed "a*b" (String.mk ['a', '\n', 'b']) = true :=
  ⟨by decide, by decide, by decide, by decide⟩

/-- C2 (amended): for a pattern containing `*` (and no `?`, since `?`
is a regex metacharacter the worker leaves unescaped), matching equals
the anchored case-insensitive glob in which `*` spans zero or more
characters other than line terminators and every other character is
literal; a pattern without `*` is used directly as an unanchored
case-insensitive regular expression; a list matches when some pattern
matches. -/
theorem claim2_wildcard_translation (p s : String)
    (hstar : p.data.contains '*' = true) (hq : p.data.contains '?' = false) :
    singlePatternTest p s = specWildcardMatch p s ∧
    (∀ (q r : String), q.data.contains '*' = false →
      singlePatternTest q r = jsTestL true q.data r.data) ∧
    (∀ (listing : List String) (u : String), u.isEmpty = false → listing.isEmpty = false →
      isMatched (some u) listing = listing.any (fun pat => singlePatternTest pat u)) := by
  refine ⟨singlePatternTest_glob p s hstar hq, ?_, ?_⟩
  · intro q r h
    have hne : ¬ (q.data.contains '*' = true) := by
      rw [h]
      simp
    unfold singlePatternTest
    rw [if_neg hne]
  · intro listing u hu hl
    simp [isMatched, hu, hl]

/-- Witness for C2 at the spec's own example pattern. -/
theorem claim2_wildcard_translation_w :
    (singlePatternTest "https://*.example.com" "https://a.example.com" =
      specWildcardMatch "https://*.example.com" "https://a.example.com") ∧
    (∀ (q r : String), q.data.contains '*' = false →
      singlePatternTest q r = jsTestL true q.data r.data) ∧
    (∀ (listing : List String) (u : String), u.isEmpty = false → listing.isEmpty = false →
      isMatched (some u) listing = listing.any (fun pat => singlePatternTest pat u)) :=
  claim2_wildcard_translation "https://*.example.com" "https://a.example.com"
    (by decide) (by decide)

/-! ## A model of JSON values, `JSON.parse` and `JSON.stringify`

Values are a mutual inductive family (instead of nesting `List`) so
that all recursions stay structural and kernel-reducible.  Numbers are
kept as their source lexeme: no claim inspects a numeric value.
`JSON.parse` rejects lone surrogate escapes (JavaScript accepts them
and produces an unpaired code unit, which a Lean `Char` cannot carry;
no claim depends on such input). -/

mutual
inductive JSVal where
  | vnull
  | vbool (b : Bool)
  | vnum (lexeme : String)
  | vstr (s : String)
  | varr (elems : JSList)
  | vobj (members : JSObj)
inductive JSList where
  | lnil
  | lcons (head : JSVal) (tail : JSList)
inductive JSObj where
  | onil
  | ocons (key : String) (value : JSVal) (tail : JSObj)
end

def hexDigitChar (n : Nat) : Char :=
  if n < 10 then Char.ofNat (48 + n) else Char.ofNat (87 + n)

/-- One character of `JSON.stringify`'s string escaping. -/
def jsonEscChar (c : Char) : List Char :=
  if c = '"' then ['\\', '"']
  else if c = '\\' then ['\\', '\\']
  else if c.toNat = 8 then ['\\', 'b']
  else if c.toNat = 9 then ['\\', 't']
  else if c.toNat = 10 then ['\\', 'n']
  else if c.toNat = 12 then ['\\', 'f']
  else if c.toNat = 13 then ['\\', 'r']
  else if c.toNat < 32 then
    ['\\', 'u', '0', '0', hexDigitChar (c.toNat / 16), hexDigitChar (c.toNat % 16)]
  else [c]

def jsonEscList : List Char → List Char
  | [] => []
  | c :: rest => jsonEscChar c ++ jsonEscList rest

def jsonQuoteChars (s : List Char) : List Char := '"' :: (jsonEscList s ++ ['"'])

mutual
def jsonValChars : JSVal → List Char
  | JSVal.vnull => ['n', 'u', 'l', 'l']
  | JSVal.vbool b => if b then ['t', 'r', 'u', 'e'] else ['f', 'a', 'l', 's', 'e']
  | JSVal.vnum lex => lex.data
  | JSVal.vstr s => jsonQuoteChars s.data
  | JSVal.varr xs => '[' :: (jsonElemsChars xs ++ [']'])
  | JSVal.vobj ms => '\x7b' :: (jsonMembersChars ms ++ ['\x7d'])
def jsonElemsChars : JSList → List Char
  | JSList.lnil => []
  | JSList.lcons v rest =>
    jsonValChars v ++ (match rest with | JSList.lnil => [] | _ => [',']) ++ jsonElemsChars rest
def jsonMembersChars : JSObj → List Char
  | JSObj.onil => []
  | JSObj.ocons k v rest =>
    jsonQuoteChars k.data ++ ':' :: jsonValChars v ++
      (match rest with | JSObj.onil => [] | _ => [',']) ++ jsonMembersChars rest
end

def jsonStringifyVal (v : JSVal) : String := String.mk (jsonValChars v)

def objOfStrings : List (String × String) → JSObj
  | [] => JSObj.onil
  | kv :: rest => JSObj.ocons kv.1 (JSVal.vstr kv.2) (objOfStrings rest)

/-- `JSON.stringify` of a flat string-valued object. -/
def jsonStringifyObj (o : List (String × String)) : String :=
  jsonStringifyVal (JSVal.vobj (objOfStrings o))

def isJsonWs (c : Char) : Bool := c = ' ' || c = '\t' || c = '\n' || c = '\r'

def skipWs (cs : List Char) : List Char := cs.dropWhile isJsonWs

def hexVal (c : Char) : Option Nat :=
  if 48 ≤ c.toNat ∧ c.toNat ≤ 57 then some (c.toNat - 48)
  else if 97 ≤ c.toNat ∧ c.toNat ≤ 102 then some (c.toNat - 87)
  else if 65 ≤ c.toNat ∧ c.toNat ≤ 70 then some (c.toNat - 55)
  else none

def hex4 (a b c d : Char) : Option Nat :=
  match hexVal a, hexVal b, hexVal c, hexVal d with
  | some x, some y, some z, some w => some (4096 * x + 256 * y + 16 * z + w)
  | _, _, _, _ => none

def escCharOf (e : Char) : Option Char :=
  if e = '"' then some '"'
  else if e = '\\' then some '\\'
  else if e = '/' then some '/'
  else if e = 'b' then some (Char.ofNat 8)
  else if e = 't' then some (Char.ofNat 9)
  else if e = 'n' then some (Char.ofNat 10)
  else if e = 'f' then some (Char.ofNat 12)
  else if e = 'r' then some (Char.ofNat 13)
  else none

/-- Body of a JSON string literal (after the opening quote), fuel
larger than the input length suffices. -/
def parseStrBody : Nat → List Char → Option (List Char × List Char)
  | 0, _ => none
  | f + 1, cs =>
    match cs with
    | [] => none
    | c :: cs1 =>
      if c = '"' then some ([], cs1)
      else if c = '\\' then
        match cs1 with
        | [] => none
        | e :: cs2 =>
          if e = 'u' then
            match cs2 with
            | a :: b :: c2 :: d :: rest =>
              (match hex4 a b c2 d with
               | none => none
               | some n =>
                 if n < 0xD800 ∨ 0xE000 ≤ n then
                   match parseStrBody f rest with
                   | some (sc, r) => some (Char.ofNat n :: sc, r)
                   | none => none
                 else if n < 0xDC00 then
                   match rest with
                   | '\\' :: 'u' :: a2 :: b2 :: c3 :: d2 :: rest2 =>
                     (match hex4 a2 b2 c3 d2 with
                      | some m =>
                        if 0xDC00 ≤ m ∧ m < 0xE000 then
                          match parseStrBody f rest2 with
                          | some (sc, r) =>
                            some (Char.ofNat
                              (0x10000 + (n - 0xD800) * 1024 + (m - 0xDC00)) :: sc, r)
                          | none => none
                        else none
                      | none => none)
                   | _ => none
                 else none)
            | _ => none
          else
            match escCharOf e with
            | some c2 =>
              (match parseStrBody f cs2 with
               | some (sc, r) => some (c2 :: sc, r)
               | none => none)
            | none => none
      else if c.toNat < 32 then none
      else
        match parseStrBody f cs1 with
        | some (sc, r) => some (c :: sc, r)
        | none => none

def digitSpan (cs : List Char) : List Char × List Char :=
  (cs.takeWhile Char.isDigit, cs.dropWhile Char.isDigit)

def parseExpPart (acc : List Char) (cs : List Char) : Option (List Char × List Char) :=
  match cs with
  | e :: r =>
    if e = 'e' ∨ e = 'E' then
      let sgnr : List Char × List Char :=
        match r with
        | '+' :: r2 => (['+'], r2)
        | '-' :: r2 => (['-'], r2)
        | _ => ([], r)
      match sgnr.2 with
      | d :: _ =>
        if d.isDigit then
          some (acc ++ e :: (sgnr.1 ++ (digitSpan sgnr.2).1), (digitSpan sgnr.2).2)
        else none
      | [] => none
    else some (acc, cs)
  | [] => some (acc, cs)

def parseFracExp (acc : List Char) (cs : List Char) : Option (List Char × List Char) :=
  match cs with
  | '.' :: r =>
    (match r with
     | d :: _ =>
       if d.isDigit then parseExpPart (acc ++ '.' :: (digitSpan r).1) (digitSpan r).2
       else none
     | [] => none)
  | _ => parseExpPart acc cs

/-- A JSON number lexeme (strict grammar: no leading zeros, no bare
`.`, no leading `+`). -/
def parseNumber (cs : List Char) : Option (List Char × List Char) :=
  let negr : List Char × List Char :=
    match cs with
    | '-' :: r => (['-'], r)
    | _ => ([], cs)
  match negr.2 with
  | [] => none
  | c :: r =>
    if c = '0' then parseFracExp (negr.1 ++ ['0']) r
    else if c.isDigit then parseFracExp (negr.1 ++ c :: (digitSpan r).1) (digitSpan r).2
    else none

mutual
def parseVal : Nat → List Char → Option (JSVal × List Char)
  | 0, _ => none
  | f + 1, cs =>
    match skipWs cs with
    | [] => none
    | c :: rest =>
      if c = '"' then
        match parseStrBody (rest.length + 1) rest with
        | some (sc, r) => some (JSVal.vstr (String.mk sc), r)
        | none => none
      else if c = '\x7b' then
        match skipWs rest with
        | '\x7d' :: r2 => some (JSVal.vobj JSObj.onil, r2)
        | r2 =>
          match parseMembers f r2 with
          | some (ms, r3) => some (JSVal.vobj ms, r3)
          | none => none
      else if c = '[' then
        match skipWs rest with
        | ']' :: r2 => some (JSVal.varr JSList.lnil, r2)
        | r2 =>
          match parseElems f r2 with
          | some (es, r3) => some (JSVal.varr es, r3)
          | none => none
      else if c = 't' then
        match rest with
        | 'r' :: 'u' :: 'e' :: r => some (JSVal.vbool true, r)
        | _ => none
      else if c = 'f' then
        match rest with
        | 'a' :: 'l' :: 's' :: 'e' :: r => some (JSVal.vbool false, r)
        | _ => none
      else if c = 'n' then
        match rest with
        | 'u' :: 'l' :: 'l' :: r => some (JSVal.vnull, r)
        | _ => none
      else if c = '-' ∨ c.isDigit then
        match parseNumber (c :: rest) with
        | some (lex, r) => some (JSVal.vnum (String.mk lex), r)
        | none => none
      else none
def parseMembers : Nat → List Char → Option (JSObj × List Char)
  | 0, _ => none
  | f + 1, cs =>
    match skipWs cs with
    | '"' :: rest =>
      (match parseStrBody (rest.length + 1) rest with
       | some (kc, r1) =>
         (match skipWs r1 with
          | ':' :: r2 =>
            (match parseVal f r2 with
             | some (v, r3) =>
               (match skipWs r3 with
                | ',' :: r4 =>
                  (match parseMembers f r4 with
                   | some (ms, r5) => some (JSObj.ocons (String.mk kc) v ms, r5)
                   | none => none)
                | '\x7d' :: r4 => some (JSObj.ocons (String.mk kc) v JSObj.onil, r4)
                | _ => none)
             | none => none)
          | _ => none)
       | none => none)
    | _ => none
def parseElems : Nat → List Char → Option (JSList × List Char)
  | 0, _ => none
  | f + 1, cs =>
    match parseVal f cs with
    | some (v, r1) =>
      (match skipWs r1 with
       | ',' :: r2 =>
         (match parseElems f r2 with
          | some (es, r3) => some (JSList.lcons v es, r3)
          | none => none)
       | ']' :: r2 => some (JSList.lcons v JSList.lnil, r2)
       | _ => none)
    | none => none
end

/-- `JSON.parse`: a value, surrounded only by whitespace. -/
def jsonParse (s : String) : Option JSVal :=
  match parseVal (2 * s.data.length + 2) s.data with
  | some (v, rest) => if (skipWs rest).isEmpty then some v else none
  | none => none

/-! ## `Object.entries` and JavaScript string conversion -/

mutual
/-- JavaScript ToString of a value, as used when a parsed custom-header
value lands in a header (arrays are approximated by joining their
elements; no claim carries a non-string custom value). -/
def jsValToString : JSVal → String
  | JSVal.vnull => "null"
  | JSVal.vbool b => if b then "true" else "false"
  | JSVal.vnum lex => lex
  | JSVal.vstr s => s
  | JSVal.varr xs => jsListToString xs
  | JSVal.vobj _ => "[object Object]"
def jsListToString : JSList → String
  | JSList.lnil => ""
  | JSList.lcons v rest =>
    jsValToString v ++ (match rest with | JSList.lnil => "" | _ => ",") ++ jsListToString rest
end

/-- The state of the worker's `customHeaders` variable after lines
115–121 of src/index.js: `null` stays absent, valid JSON becomes the
parsed value, and on a parse failure the caught exception leaves the
raw string in place. -/
inductive CustomState where
  | absent
  | parsed (v : JSVal)
  | unparsed (s : String)

def customState (raw : Option String) : CustomState :=
  match raw with
  | none => CustomState.absent
  | some s =>
    match jsonParse s with
    | some v => CustomState.parsed v
    | none => CustomState.unparsed s

/-- `Object.entries` of a string: index/character pairs. -/
def stringIndexEntries (s : String) : List (String × String) :=
  s.data.enum.map (fun p => (Nat.repr p.1, String.mk [p.2]))

def objEntries : JSObj → List (String × String)
  | JSObj.onil => []
  | JSObj.ocons k v rest => (k, jsValToString v) :: objEntries rest

def jsListEntries : JSList → Nat → List (String × String)
  | JSList.lnil, _ => []
  | JSList.lcons v rest, i => (Nat.repr i, jsValToString v) :: jsListEntries rest (i + 1)

/-- `Object.entries(customHeaders)` with header-value conversion, for
each shape the variable can have at src/index.js line 138. -/
def customEntries : CustomState → List (String × String)
  | CustomState.absent => []
  | CustomState.unparsed s => stringIndexEntries s
  | CustomState.parsed (JSVal.vobj ms) => objEntries ms
  | CustomState.parsed (JSVal.vstr s) => stringIndexEntries s
  | CustomState.parsed (JSVal.varr xs) => jsListEntries xs 0
  | CustomState.parsed _ => []

/-! ## The `Headers` and plain-object models -/

/-- The platform `Headers` view of raw request headers: names are
normalised to lower case (entry order is modelled as given). -/
def headerEntries (hs : List (String × String)) : List (String × String) :=
  hs.map (fun kv => (lowerStr kv.1, kv.2))

def hvalsFor (hs : List (String × String)) (n : String) : List String :=
  (hs.filter (fun kv => decide (kv.1 = n))).map (fun kv => kv.2)

/-- `Headers.prototype.get`: `null` when absent, values joined with
", " when repeated. -/
def hget (hs : List (String × String)) (name : String) : Option String :=
  match hvalsFor hs (lowerStr name) with
  | [] => none
  | vs => some (sepJoin ", " vs)

def hsetCore : List (String × String) → String → String → List (String × String)
  | [], n, v => [(n, v)]
  | kv :: rest, n, v =>
    if kv.1 = n then (n, v) :: rest.filter (fun kv2 => !decide (kv2.1 = n))
    else kv :: hsetCore rest n v

/-- `Headers.prototype.set`. -/
def hset (hs : List (String × String)) (name v : String) : List (String × String) :=
  hsetCore hs (lowerStr name) v

/-- `Headers.prototype.set` with a possibly-`null` value: WebIDL
ByteString conversion turns `null` into the string "null". -/
def hsetNullable (hs : List (String × String)) (name : String) (v : Option String) :
    List (String × String) :=
  hset hs name (match v with | some s => s | none => "null")

def hdelete (hs : List (String × String)) (name : String) : List (String × String) :=
  hs.filter (fun kv => !decide (kv.1 = lowerStr name))

/-- Plain-object property read (`o[k]`); keys are unique, so the first
match is the binding. -/
def jsObjGet : List (String × String) → String → Option String
  | [], _ => none
  | kv :: rest, k => if kv.1 = k then some kv.2 else jsObjGet rest k

/-- Plain-object property write (`o[k] = v`): updates in place or
appends. -/
def jsObjSet (o : List (String × String)) (k v : String) : List (String × String) :=
  if o.any (fun kv => decide (kv.1 = k)) then
    o.map (fun kv => if kv.1 = k then (k, v) else kv)
  else o ++ [(k, v)]

def jsObjSetAll (o : List (String × String)) (l : List (String × String)) :
    List (String × String) :=
  l.foldl (fun acc kv => jsObjSet acc kv.1 kv.2) o

/-! ## `decodeURIComponent` -/

def contByteOk (b : Nat) : Bool := decide (128 ≤ b) && decide (b < 192)

/-- Percent-unescaping: each `%XX` becomes a byte, everything else
stays a character.  `none` = URIError (incomplete or non-hex escape). -/
def pctToks : List Char → Option (List (Char ⊕ Nat))
  | [] => some []
  | '%' :: a :: b :: rest =>
    (match hexVal a, hexVal b with
     | some x, some y =>
       (match pctToks rest with
        | some ts => some (Sum.inr (16 * x + y) :: ts)
        | none => none)
     | _, _ => none)
  | '%' :: _ => none
  | c :: rest =>
    (match pctToks rest with
     | some ts => some (Sum.inl c :: ts)
     | none => none)

/-- Strict UTF-8 decoding of byte runs (with overlong and surrogate
guards), literal characters passed through.  `none` = URIError. -/
def decodeSeq : List (Char ⊕ Nat) → Option (List Char)
  | [] => some []
  | Sum.inl c :: rest =>
    (match decodeSeq rest with
     | some cs => some (c :: cs)
     | none => none)
  | Sum.inr b :: rest =>
    if b < 128 then
      match decodeSeq rest with
      | some cs => some (Char.ofNat b :: cs)
      | none => none
    else if 194 ≤ b ∧ b ≤ 223 then
      match rest with
      | Sum.inr b2 :: r2 =>
        if contByteOk b2 then
          match decodeSeq r2 with
          | some cs => some (Char.ofNat ((b - 192) * 64 + (b2 - 128)) :: cs)
          | none => none
        else none
      | _ => none
    else if 224 ≤ b ∧ b ≤ 239 then
      match rest with
      | Sum.inr b2 :: Sum.inr b3 :: r2 =>
        if (if b = 224 then decide (160 ≤ b2) && decide (b2 < 192)
            else if b = 237 then decide (128 ≤ b2) && decide (b2 < 160)
            else contByteOk b2) && contByteOk b3 then
          match decodeSeq r2 with
          | some cs =>
            some (Char.ofNat ((b - 224) * 4096 + (b2 - 128) * 64 + (b3 - 128)) :: cs)
          | none => none
        else none
      | _ => none
    else if 240 ≤ b ∧ b ≤ 244 then
      match rest with
      | Sum.inr b2 :: Sum.inr b3 :: Sum.inr b4 :: r2 =>
        if (if b = 240 then decide (144 ≤ b2) && decide (b2 < 192)
            else if b = 244 then decide (128 ≤ b2) && decide (b2 < 144)
            else contByteOk b2) && contByteOk b3 && contByteOk b4 then
          match decodeSeq r2 with
          | some cs =>
            some (Char.ofNat ((b - 240) * 262144 + (b2 - 128) * 4096 +
              (b3 - 128) * 64 + (b4 - 128)) :: cs)
          | none => none
        else none
      | _ => none
    else none

inductive HandlerErr where
  | uriError
deriving DecidableEq

def decodeURIComponent (s : String) : Option String :=
  match pctToks s.data with
  | none => none
  | some ts =>
    match decodeSeq ts with
    | some cs => some (String.mk cs)
    | none => none

/-- `decodeURIComponent(decodeURIComponent(...))`
(src/index.js line 109); a URIError propagates. -/
def doubleDecode (s : String) : Except HandlerErr String :=
  match decodeURIComponent s with
  | none => Except.error HandlerErr.uriError
  | some a =>
    match decodeURIComponent a with
    | none => Except.error HandlerErr.uriError
    | some b => Except.ok b

def strDrop1 (s : String) : String := String.mk (s.data.drop 1)

/-! ## The fetch handler (src/index.js lines 86–213) -/

structure CfInfo where
  country : Option String
  colo : Option String

/-- The pieces of the incoming request the handler reads: method, the
URL's origin and search parts, the raw header pairs, and the optional
`request.cf` object. -/
structure RequestModel where
  method : String
  urlOrigin : String
  search : String
  headers : List (String × String)
  cf : Option CfInfo

/-- `request.headers.get(name)`. -/
def reqGet (r : RequestModel) (name : String) : Option String :=
  hget (headerEntries r.headers) name

/-- The upstream response, as the external fetch collaborator delivers
it; `headers` is its `Headers` entries view (lower-case names). -/
structure UpstreamResponse where
  status : Nat
  statusText : String
  headers : List (String × String)
  body : String

structure ResponseModel where
  status : Nat
  statusText : String
  headers : List (String × String)
  body : Option String

/-- What the handler hands to `fetch`: the decoded target URL and the
outbound header object. -/
structure FetchCall where
  url : String
  headers : List (String × String)

/-- The five exclusion tests of src/index.js lines 127–131, each a
`key.match(...)` against the fixed (case-sensitive) regexes; keys from
`Headers` iteration are already lower-case. -/
def filterKeep (k : String) : Bool :=
  !(jsRegexTest false "^origin" k) && !(jsRegexTest false "eferer" k) &&
  !(jsRegexTest false "^cf-" k) && !(jsRegexTest false "^x-forw" k) &&
  !(jsRegexTest false "^x-cors-headers" k)

/-- `filteredHeaders` (src/index.js lines 124–139): copy the surviving
entries into a plain object, then assign every `Object.entries` pair of
`customHeaders` over it. -/
def buildOutboundHeaders (r : RequestModel) (cst : CustomState) : List (String × String) :=
  let base := (headerEntries r.headers).foldl
    (fun o kv => if filterKeep kv.1 then jsObjSet o kv.1 kv.2 else o) []
  match cst with
  | CustomState.absent => base
  | _ => jsObjSetAll base (customEntries cst)

/-- `setupCORSHeaders` (src/index.js lines 94–107). -/
def setupCORSHeaders (r : RequestModel) (isPre : Bool) (hs : List (String × String)) :
    List (String × String) :=
  let h1 := hsetNullable hs "Access-Control-Allow-Origin" (reqGet r "Origin")
  if isPre then
    let h2 := hsetNullable h1 "Access-Control-Allow-Methods"
      (reqGet r "access-control-request-method")
    let h3 :=
      match reqGet r "access-control-request-headers" with
      | some rh => if rh.isEmpty then h2 else hset h2 "Access-Control-Allow-Headers" rh
      | none => h2
    hdelete h3 "X-Content-Type-Options"
  else h1

/-- The value `JSON.stringify(customHeaders)` sees on the info page. -/
def cstJsonVal : CustomState → JSVal
  | CustomState.parsed v => v
  | CustomState.unparsed s => JSVal.vstr s
  | CustomState.absent => JSVal.vnull

def originLine : Option String → String
  | some o => "Origin: " ++ o ++ "\n"
  | none => ""

def infoPrefix (r : RequestModel) : String :=
  "CLOUDFLARE-CORS-ANYWHERE\n\nSource:\nhttps://github.com/Zibri/cloudflare-cors-anywhere\n\n" ++
  "Usage:\n" ++ r.urlOrigin ++ "/?uri\n\nLimits: 100,000 requests/day\n" ++
  "          1,000 requests/10 minutes\n\n"

def cfCountryVal (r : RequestModel) : Option String :=
  match r.cf with
  | none => none
  | some cf =>
    match cf.country with
    | some c => if c.isEmpty then none else some c
    | none => none

def cfColoVal (r : RequestModel) : Option String :=
  match r.cf with
  | none => none
  | some cf =>
    match cf.colo with
    | some c => if c.isEmpty then none else some c
    | none => none

def infoTail (r : RequestModel) (connectingIp : Option String) (cst : CustomState) : String :=
  "IP: " ++ (match connectingIp with | some ip => ip | none => "null") ++ "\n" ++
  (match cfCountryVal r with | some c => "Country: " ++ c ++ "\n" | none => "") ++
  (match cfColoVal r with | some c => "Datacenter: " ++ c ++ "\n" | none => "") ++
  "\n" ++
  (match cst with
   | CustomState.absent => ""
   | _ => "\nx-cors-headers: " ++ jsonStringifyVal (cstJsonVal cst))

def infoPageBody (r : RequestModel) (origin connectingIp : Option String)
    (cst : CustomState) : String :=
  infoPrefix r ++ originLine origin ++ infoTail r connectingIp cst

def deniedBody : String :=
  "Create your own CORS proxy</br>\n" ++
  "<a href=\x27https://github.com/Zibri/cloudflare-cors-anywhere\x27>" ++
  "https://github.com/Zibri/cloudflare-cors-anywhere</a></br>\n"

/-- The 403 rejection (src/index.js lines 199–211); its `Headers` come
from the record `{"Content-Type": "text/html"}`. -/
def deniedResponse : ResponseModel :=
  { status := 403, statusText := "Forbidden",
    headers := [("content-type", "text/html")], body := some deniedBody }

/-- The whole fetch handler.  `up` is the upstream response the fetch
collaborator would deliver for the (single) outbound call; the returned
`Option FetchCall` records whether and how upstream was called. -/
def handleFetch (r : RequestModel) (lists : AccessLists) (up : UpstreamResponse) :
    Except HandlerErr (ResponseModel × Option FetchCall) :=
  let isPre := r.method == "OPTIONS"
  match doubleDecode (strDrop1 r.search) with
  | Except.error e => Except.error e
  | Except.ok targetUrl =>
    if isAccessAllowed targetUrl (reqGet r "Origin") lists then
      let cst := customState (reqGet r "x-cors-headers")
      if strStarts r.search "?" then
        let outbound := buildOutboundHeaders r cst
        let exposed := (up.headers.map (fun kv => kv.1)) ++ ["cors-received-headers"]
        let allResp := jsObjSetAll [] up.headers
        let rh1 := setupCORSHeaders r isPre up.headers
        let rh2 := hset rh1 "Access-Control-Expose-Headers" (sepJoin "," exposed)
        let rh3 := hset rh2 "cors-received-headers" (jsonStringifyObj allResp)
        Except.ok
          ({ status := if isPre then 200 else up.status,
             statusText := if isPre then "OK" else up.statusText,
             headers := rh3,
             body := if isPre then none else some up.body },
           some { url := targetUrl, headers := outbound })
      else
        Except.ok
          ({ status := 200, statusText := "",
             headers := setupCORSHeaders r isPre [],
             body := some (infoPageBody r (reqGet r "Origin")
               (reqGet r "CF-Connecting-IP") cst) }, none)
    else
      Except.ok (deniedResponse, none)

/-! ## The exclusion predicate in spec language -/

/-- The five exclusion rules as the spec words them (prefix/substring
tests); `filterKeep` is proved equal to this below. -/
def keepSpec (k : String) : Bool :=
  !(strStarts k "origin") && !(strHasSub k "eferer") && !(strStarts k "cf-") &&
  !(strStarts k "x-forw") && !(strStarts k "x-cors-headers")

theorem jsRegexTest_origin (k : String) :
    jsRegexTest false "^origin" k = strStarts k "origin" := by
  have hp : parseAtoms ("^origin".data) = some (startTok :: litToks ("origin".data)) := rfl
  unfold jsRegexTest
  rw [jsTestL_some false _ k.data _ hp, searchToks_anchored_lits]
  rfl

theorem jsRegexTest_referer (k : String) :
    jsRegexTest false "eferer" k = strHasSub k "eferer" := by
  have hp : parseAtoms ("eferer".data) = some (litToks ("eferer".data)) := rfl
  unfold jsRegexTest
  rw [jsTestL_some false _ k.data _ hp, searchToks_lits]
  rfl

theorem jsRegexTest_cf (k : String) :
    jsRegexTest false "^cf-" k = strStarts k "cf-" := by
  have hp : parseAtoms ("^cf-".data) = some (startTok :: litToks ("cf-".data)) := rfl
  unfold jsRegexTest
  rw [jsTestL_some false _ k.data _ hp, searchToks_anchored_lits]
  rfl

theorem jsRegexTest_xforw (k : String) :
    jsRegexTest false "^x-forw" k = strStarts k "x-forw" := by
  have hp : parseAtoms ("^x-forw".data) = some (startTok :: litToks ("x-forw".data)) := rfl
  unfold jsRegexTest
  rw [jsTestL_some false _ k.data _ hp, searchToks_anchored_lits]
  rfl

theorem jsRegexTest_xcors (k : String) :
    jsRegexTest false "^x-cors-headers" k = strStarts k "x-cors-headers" := by
  have hp : parseAtoms ("^x-cors-headers".data) =
      some (startTok :: litToks ("x-cors-headers".data)) := rfl
  unfold jsRegexTest
  rw [jsTestL_some false _ k.data _ hp, searchToks_anchored_lits]
  rfl

theorem filterKeep_eq_keepSpec (k : String) : filterKeep k = keepSpec k := by
  unfold filterKeep keepSpec
  rw [jsRegexTest_origin, jsRegexTest_referer, jsRegexTest_cf, jsRegexTest_xforw,
    jsRegexTest_xcors]

/-! ## Plain-object lemmas -/

/-- The value of the last binding for `k` in an entry list. -/
def lastBind : List (String × String) → String → Option String
  | [], _ => none
  | kv :: rest, k => optOr (lastBind rest k) (if kv.1 = k then some kv.2 else none)

theorem optOr_none_right (a : Option String) : optOr a none = a := by
  cases a <;> rfl

theorem optOr_assoc (a b c : Option String) :
    optOr (optOr a b) c = optOr a (optOr b c) := by
  cases a <;> rfl

theorem jsObjGet_append (o l : List (String × String)) (k : String) :
    jsObjGet (o ++ l) k = optOr (jsObjGet o k) (jsObjGet l k) := by
  induction o with
  | nil => simp [jsObjGet, optOr]
  | cons kv rest ih =>
    by_cases h : kv.1 = k <;> simp [jsObjGet, h, ih, optOr]

theorem jsObjGet_none_of_no_key (o : List (String × String)) (k : String)
    (h : o.any (fun kv => decide (kv.1 = k)) = false) : jsObjGet o k = none := by
  induction o with
  | nil => rfl
  | cons kv rest ih =>
    simp only [List.any_cons, Bool.or_eq_false_iff] at h
    have h1 : ¬ kv.1 = k := by simpa using h.1
    simp [jsObjGet, h1, ih h.2]

theorem jsObjGet_map_replace_ne (o : List (String × String)) (k' v k : String)
    (h : ¬ k = k') :
    jsObjGet (o.map (fun kv => if kv.1 = k' then (k', v) else kv)) k = jsObjGet o k := by
  induction o with
  | nil => rfl
  | cons kv rest ih =>
    by_cases hkv : kv.1 = k'
    · have hk' : ¬ (k' = k) := fun hc => h hc.symm
      have hkvk : ¬ (kv.1 = k) := fun hc => h (hkv ▸ hc : k' = k).symm
      simp [jsObjGet, hkv, hk', hkvk, ih]
    · simp only [List.map_cons, if_neg hkv]
      by_cases hkk : kv.1 = k <;> simp [jsObjGet, hkk, ih]

theorem jsObjGet_map_replace_eq (o : List (String × String)) (k' v : String)
    (h : o.any (fun kv => decide (kv.1 = k')) = true) :
    jsObjGet (o.map (fun kv => if kv.1 = k' then (k', v) else kv)) k' = some v := by
  induction o with
  | nil => simp at h
  | cons kv rest ih =>
    by_cases hkv : kv.1 = k'
    · simp [jsObjGet, hkv]
    · simp only [List.any_cons, Bool.or_eq_true] at h
      rcases h with h | h
      · exact absurd (by simpa using h) hkv
      · simp [jsObjGet, hkv, ih h]

theorem jsObjGet_set (o : List (String × String)) (k' v k : String) :
    jsObjGet (jsObjSet o k' v) k = if k = k' then some v else jsObjGet o k := by
  unfold jsObjSet
  by_cases hany : o.any (fun kv => decide (kv.1 = k')) = true
  · rw [if_pos hany]
    by_cases hk : k = k'
    · subst hk
      rw [if_pos rfl, jsObjGet_map_replace_eq o k v hany]
    · rw [if_neg hk, jsObjGet_map_replace_ne o k' v k hk]
  · rw [if_neg hany, jsObjGet_append]
    have hnone : jsObjGet o k' = none :=
      jsObjGet_none_of_no_key o k'
        (by revert hany; cases o.any (fun kv => decide (kv.1 = k')) <;> simp)
    by_cases hk : k = k'
    · subst hk
      simp [hnone, jsObjGet, optOr]
    · have h2 : ¬ (k' = k) := fun hc => hk hc.symm
      rw [if_neg hk]
      have hone : jsObjGet [(k', v)] k = none := by simp [jsObjGet, h2]
      rw [hone, optOr_none_right]

theorem lastBind_cons (kv : String × String) (rest : List (String × String)) (k : String) :
    lastBind (kv :: rest) k =
      optOr (lastBind rest k) (if kv.1 = k then some kv.2 else none) := rfl

theorem jsObjGet_setAll (l : List (String × String)) (o : List (String × String)) (k : String) :
    jsObjGet (jsObjSetAll o l) k = optOr (lastBind l k) (jsObjGet o k) := by
  induction l generalizing o with
  | nil => simp [jsObjSetAll, lastBind, optOr]
  | cons kv rest ih =>
    obtain ⟨k1, v1⟩ := kv
    have hstep : jsObjSetAll o ((k1, v1) :: rest) = jsObjSetAll (jsObjSet o k1 v1) rest := rfl
    rw [hstep, ih, jsObjGet_set, lastBind_cons, optOr_assoc]
    congr 1
    by_cases hk : k = k1
    · rw [if_pos hk, if_pos hk.symm]
      rfl
    · rw [if_neg hk, if_neg (fun hc => hk hc.symm)]
      rfl

theorem jsObjGet_filterFold (l : List (String × String)) (p : String → Bool)
    (o : List (String × String)) (k : String) :
    jsObjGet (l.foldl (fun acc kv => if p kv.1 then jsObjSet acc kv.1 kv.2 else acc) o) k =
      optOr (if p k then lastBind l k else none) (jsObjGet o k) := by
  induction l generalizing o with
  | nil => cases hp : p k <;> simp [lastBind, optOr]
  | cons kv rest ih =>
    obtain ⟨k1, v1⟩ := kv
    rw [List.foldl_cons, ih, lastBind_cons]
    by_cases hk : k = k1
    · subst hk
      cases hp : p k with
      | false =>
        rw [if_neg (by simp [hp]), if_neg (by simp [hp]), if_neg (by simp [hp])]
      | true =>
        rw [if_pos (by simp [hp]), if_pos (by simp [hp]), if_pos (by simp [hp]),
          jsObjGet_set, if_pos rfl, if_pos rfl, optOr_assoc]
        rfl
    · have hne : ¬ (k1 = k) := fun hc => hk hc.symm
      have hget : jsObjGet (if p k1 = true then jsObjSet o k1 v1 else o) k = jsObjGet o k := by
        cases hp : p k1
        · simp
        · simp [jsObjGet_set, hk]
      rw [hget, if_neg hne, optOr_none_right]

/-! ## Outbound-header characterization -/

/-- The overlay the custom-header state contributes when it is either
absent or a successfully parsed JSON object (the shapes claim C3
covers). -/
def overlayOf : CustomState → Option (List (String × String))
  | CustomState.absent => some []
  | CustomState.parsed (JSVal.vobj ms) => some (objEntries ms)
  | _ => none

theorem buildOutbound_lookup (r : RequestModel) (cst : CustomState)
    (ov : List (String × String)) (hov : overlayOf cst = some ov) (k : String) :
    jsObjGet (buildOutboundHeaders r cst) k =
      optOr (lastBind ov k)
        (if keepSpec k then lastBind (headerEntries r.headers) k else none) := by
  have hbase : ∀ k2, jsObjGet ((headerEntries r.headers).foldl
      (fun o kv => if filterKeep kv.1 then jsObjSet o kv.1 kv.2 else o) []) k2 =
      (if keepSpec k2 then lastBind (headerEntries r.headers) k2 else none) := by
    intro k2
    rw [jsObjGet_filterFold, filterKeep_eq_keepSpec]
    have : jsObjGet [] k2 = none := rfl
    rw [this, optOr_none_right]
  cases cst with
  | absent =>
    have h0 : some ([] : List (String × String)) = some ov := by
      rw [← hov]
      rfl
    injection h0 with h1
    subst h1
    unfold buildOutboundHeaders
    rw [hbase k]
    rfl
  | unparsed s => simp [overlayOf] at hov
  | parsed v =>
    cases v with
    | vobj ms =>
      have h0 : some (objEntries ms) = some ov := by
        rw [← hov]
        rfl
      injection h0 with h1
      subst h1
      unfold buildOutboundHeaders
      rw [show (match CustomState.parsed (JSVal.vobj ms) with
        | CustomState.absent => ((headerEntries r.headers).foldl
            (fun o kv => if filterKeep kv.1 then jsObjSet o kv.1 kv.2 else o) [])
        | _ => jsObjSetAll ((headerEntries r.headers).foldl
            (fun o kv => if filterKeep kv.1 then jsObjSet o kv.1 kv.2 else o) [])
            (customEntries (CustomState.parsed (JSVal.vobj ms)))) =
        jsObjSetAll ((headerEntries r.headers).foldl
            (fun o kv => if filterKeep kv.1 then jsObjSet o kv.1 kv.2 else o) [])
            (objEntries ms) from rfl]
      rw [jsObjGet_setAll, hbase k]
    | vnull => simp [overlayOf] at hov
    | vbool b => simp [overlayOf] at hov
    | vnum lex => simp [overlayOf] at hov
    | vstr s => simp [overlayOf] at hov
    | varr xs => simp [overlayOf] at hov

/-! ## `Headers` get/set/delete lemmas -/

theorem sepJoin_single (sep x : String) : sepJoin sep [x] = x := by
  show x ++ "" ++ sepJoin sep [] = x
  show x ++ "" ++ "" = x
  simp

theorem filter_out_filter_ne (l : List (String × String)) (n m : String) (h : ¬ m = n) :
    (l.filter (fun kv => !decide (kv.1 = n))).filter (fun kv => decide (kv.1 = m)) =
      l.filter (fun kv => decide (kv.1 = m)) := by
  induction l with
  | nil => rfl
  | cons kv rest ih =>
    have hnm : ¬ n = m := fun hc => h hc.symm
    by_cases h1 : kv.1 = n
    · have h2 : ¬ kv.1 = m := fun hc => h (hc ▸ h1 : m = n)
      simp [List.filter_cons, h1, h2, hnm, h, ih]
    · simp only [List.filter_cons]
      by_cases h2 : kv.1 = m <;> simp [h1, h2, hnm, h, ih]

theorem hvalsFor_setCore_self (hs : List (String × String)) (n v : String) :
    hvalsFor (hsetCore hs n v) n = [v] := by
  induction hs with
  | nil => simp [hsetCore, hvalsFor]
  | cons kv rest ih =>
    by_cases h : kv.1 = n
    · simp only [hsetCore, if_pos h]
      unfold hvalsFor
      simp only [List.filter_cons, decide_eq_true_eq]
      rw [if_pos (by simp)]
      have : (rest.filter (fun kv2 => !decide (kv2.1 = n))).filter
          (fun kv => decide (kv.1 = n)) = [] := by
        induction rest with
        | nil => rfl
        | cons kv2 r2 ih2 =>
          by_cases h2 : kv2.1 = n <;> simp [List.filter_cons, h2, ih2]
      simp [this]
    · simp only [hsetCore, if_neg h]
      unfold hvalsFor at ih ⊢
      simp [List.filter_cons, h, ih]

theorem hvalsFor_setCore_ne (hs : List (String × String)) (n v m : String) (h : ¬ m = n) :
    hvalsFor (hsetCore hs n v) m = hvalsFor hs m := by
  induction hs with
  | nil =>
    have : ¬ (n = m) := fun hc => h hc.symm
    simp [hsetCore, hvalsFor, this]
  | cons kv rest ih =>
    by_cases h1 : kv.1 = n
    · simp only [hsetCore, if_pos h1]
      unfold hvalsFor
      have hnm : ¬ (n = m) := fun hc => h hc.symm
      have hkvm : ¬ (kv.1 = m) := fun hc => h (hc ▸ h1 : m = n)
      simp only [List.filter_cons, decide_eq_true_eq]
      rw [if_neg (by simpa using hnm), if_neg (by simpa using hkvm)]
      have := filter_out_filter_ne rest n m h
      rw [show ((rest.filter (fun kv2 => !decide (kv2.1 = n))).filter
        (fun kv => decide (kv.1 = m))).map (fun kv => kv.2) =
        (rest.filter (fun kv => decide (kv.1 = m))).map (fun kv => kv.2) from by rw [this]]
    · simp only [hsetCore, if_neg h1]
      unfold hvalsFor at ih ⊢
      by_cases h2 : kv.1 = m <;> simp [List.filter_cons, h2, ih]

theorem hget_hset (hs : List (String × String)) (n v m : String) :
    hget (hset hs n v) m =
      if lowerStr m = lowerStr n then some v else hget hs m := by
  unfold hget hset
  by_cases h : lowerStr m = lowerStr n
  · rw [if_pos h, h, hvalsFor_setCore_self]
    simp [sepJoin_single]
  · rw [if_neg h, hvalsFor_setCore_ne hs (lowerStr n) v (lowerStr m) h]

theorem hvalsFor_filter_out (l : List (String × String)) (n : String) :
    hvalsFor (l.filter (fun kv => !decide (kv.1 = n))) n = [] := by
  induction l with
  | nil => rfl
  | cons kv rest ih =>
    by_cases h : kv.1 = n
    · simpa [List.filter_cons, h] using ih
    · unfold hvalsFor at ih ⊢
      simp [List.filter_cons, h, ih]

theorem hget_hdelete (hs : List (String × String)) (n m : String) :
    hget (hdelete hs n) m =
      if lowerStr m = lowerStr n then none else hget hs m := by
  unfold hget hdelete
  by_cases h : lowerStr m = lowerStr n
  · rw [if_pos h, h, hvalsFor_filter_out]
  · rw [if_neg h]
    have := filter_out_filter_ne hs (lowerStr n) (lowerStr m) h
    unfold hvalsFor
    rw [this]

/-! ## Claims about the handler -/

/-- C3: on the proxied path the outbound header object holds exactly
the incoming entries whose (lower-cased) key passes the five exclusion
rules, with the pairs of a successfully parsed `x-cors-headers` object
overlaid on top, overwriting same-named retained headers: for every
key, the outbound value is the custom object's last binding when one
exists, else the retained incoming value when the key passes the
rules, else nothing. -/
theorem claim3_outbound_filter_overlay (r : RequestModel) (lists : AccessLists)
    (up : UpstreamResponse) (tgt : String) (ov : List (String × String))
    (hdec : doubleDecode (strDrop1 r.search) = Except.ok tgt)
    (hallow : isAccessAllowed tgt (reqGet r "Origin") lists = true)
    (hq : strStarts r.search "?" = true)
    (hov : overlayOf (customState (reqGet r "x-cors-headers")) = some ov) :
    ∃ resp call, handleFetch r lists up = Except.ok (resp, some call) ∧
      ∀ k, jsObjGet call.headers k =
        optOr (lastBind ov k)
          (if keepSpec k then lastBind (headerEntries r.headers) k else none) := by
  simp only [handleFetch, hdec, hallow, hq, if_true]
  refine ⟨_, _, rfl, ?_⟩
  intro k
  exact buildOutbound_lookup r _ ov hov k

/-- Witness for C3: a request with Referer/X-Forwarded-For stripped and
an `x-cors-headers` object overriding `accept`. -/
theorem claim3_outbound_filter_overlay_w :
    ∃ resp call,
      handleFetch ⟨"GET", "https://w.example", "?https://t.example/a",
        [("Origin", "https://app.example"), ("Accept", "x"), ("Referer", "r"),
         ("X-Forwarded-For", "1.2.3.4"),
         ("x-cors-headers", "\x7b\"accept\":\"y\"\x7d")], none⟩
        ⟨[], [], [], []⟩ ⟨200, "OK", [], "B"⟩ = Except.ok (resp, some call) ∧
      ∀ k, jsObjGet call.headers k =
        optOr (lastBind (objEntries (JSObj.ocons "accept" (JSVal.vstr "y") JSObj.onil)) k)
          (if keepSpec k then
            lastBind (headerEntries
              [("Origin", "https://app.example"), ("Accept", "x"), ("Referer", "r"),
               ("X-Forwarded-For", "1.2.3.4"),
               ("x-cors-headers", "\x7b\"accept\":\"y\"\x7d")]) k
          else none) :=
  claim3_outbound_filter_overlay
    ⟨"GET", "https://w.example", "?https://t.example/a",
      [("Origin", "https://app.example"), ("Accept", "x"), ("Referer", "r"),
       ("X-Forwarded-For", "1.2.3.4"),
       ("x-cors-headers", "\x7b\"accept\":\"y\"\x7d")], none⟩
    ⟨[], [], [], []⟩ ⟨200, "OK", [], "B"⟩ "https://t.example/a"
    (objEntries (JSObj.ocons "accept" (JSVal.vstr "y") JSObj.onil))
    rfl rfl rfl rfl

/-- C4 (code bug): when `x-cors-headers` is present but not valid JSON
the exception is swallowed, but `customHeaders` is left holding the raw
string, so `Object.entries` enumerates its characters and the outbound
set gains index/character headers instead of none: with value "abc"
the outbound header object becomes 0:a, 1:b, 2:c. -/
theorem claim4_unparsed_custom_merged :
    jsonParse "abc" = none ∧
    (match handleFetch ⟨"GET", "o", "?u", [("x-cors-headers", "abc")], none⟩
        ⟨[], [], [], []⟩ ⟨200, "OK", [], "B"⟩ with
     | Except.ok (_, some call) => call.headers
     | _ => []) = [("0", "a"), ("1", "b"), ("2", "c")] :=
  ⟨rfl, rfl⟩

/-- C8: every binding of a successfully parsed `x-cors-headers` JSON
object reaches the outbound header object unconditionally — the five
exclusion rules are not re-applied to it, so a caller can set
otherwise-excluded headers through this side channel. -/
theorem claim8_custom_header_bypass (r : RequestModel) (lists : AccessLists)
    (up : UpstreamResponse) (tgt cs : String) (ms : JSObj)
    (hxc : reqGet r "x-cors-headers" = some cs)
    (hparse : jsonParse cs = some (JSVal.vobj ms))
    (hdec : doubleDecode (strDrop1 r.search) = Except.ok tgt)
    (hallow : isAccessAllowed tgt (reqGet r "Origin") lists = true)
    (hq : strStarts r.search "?" = true) :
    ∃ resp call, handleFetch r lists up = Except.ok (resp, some call) ∧
      ∀ k v, lastBind (objEntries ms) k = some v → jsObjGet call.headers k = some v := by
  have hcst : customState (reqGet r "x-cors-headers") =
      CustomState.parsed (JSVal.vobj ms) := by
    rw [hxc]
    simp [customState, hparse]
  simp only [handleFetch, hdec, hallow, hq, if_true]
  refine ⟨_, _, rfl, ?_⟩
  intro k v hv
  have hlook := buildOutbound_lookup r (customState (reqGet r "x-cors-headers"))
    (objEntries ms) (by rw [hcst]; rfl) k
  rw [hlook, hv]
  rfl

/-- Witness for C8: the caller injects `origin`, an otherwise-excluded
header, via `x-cors-headers`. -/
theorem claim8_custom_header_bypass_w :
    ∃ resp call,
      handleFetch ⟨"GET", "o", "?u",
        [("Origin", "https://app.example"), ("x-cors-headers", "\x7b\"origin\":\"o2\"\x7d")],
        none⟩ ⟨[], [], [], []⟩ ⟨200, "OK", [], "B"⟩ = Except.ok (resp, some call) ∧
      ∀ k v, lastBind (objEntries (JSObj.ocons "origin" (JSVal.vstr "o2") JSObj.onil)) k =
          some v → jsObjGet call.headers k = some v :=
  claim8_custom_header_bypass
    ⟨"GET", "o", "?u",
      [("Origin", "https://app.example"), ("x-cors-headers", "\x7b\"origin\":\"o2\"\x7d")],
      none⟩ ⟨[], [], [], []⟩ ⟨200, "OK", [], "B"⟩ "u" "\x7b\"origin\":\"o2\"\x7d"
    (JSObj.ocons "origin" (JSVal.vstr "o2") JSObj.onil) rfl rfl rfl rfl rfl

/-- C9: a query string with an invalid percent escape (such as `?%`)
makes the double decode throw before the access-policy check runs: for
every access-list configuration the handler produces no response at
all, only the propagated URIError. -/
theorem claim9_decode_throws (r : RequestModel) (lists : AccessLists)
    (up : UpstreamResponse) (hsearch : r.search = "?%") :
    handleFetch r lists up = Except.error HandlerErr.uriError := by
  have hdd : doubleDecode (strDrop1 r.search) = Except.error HandlerErr.uriError := by
    rw [hsearch]
    rfl
  simp [handleFetch, hdd]

/-- Witness for C9. -/
theorem claim9_decode_throws_w :
    handleFetch ⟨"GET", "o", "?%", [("Origin", "https://evil.example")], none⟩
      ⟨[], [], ["https://evil.example"], ["https://evil.example"]⟩
      ⟨200, "OK", [], "B"⟩ = Except.error HandlerErr.uriError :=
  claim9_decode_throws _ _ _ rfl

/-- C10: a request denied by the access policy gets the fixed 403
response whose only header is `Content-Type: text/html` — in
particular it carries no Access-Control-Allow-Origin. -/
theorem claim10_denied_response (r : RequestModel) (lists : AccessLists)
    (up : UpstreamResponse) (tgt : String)
    (hdec : doubleDecode (strDrop1 r.search) = Except.ok tgt)
    (hdeny : isAccessAllowed tgt (reqGet r "Origin") lists = false) :
    handleFetch r lists up = Except.ok (deniedResponse, none) ∧
    deniedResponse.headers = [("content-type", "text/html")] ∧
    hget deniedResponse.headers "access-control-allow-origin" = none ∧
    deniedResponse.status = 403 ∧ deniedResponse.statusText = "Forbidden" := by
  refine ⟨?_, rfl, rfl, rfl, rfl⟩
  simp [handleFetch, hdec, hdeny]

/-- Witness for C10: a blacklisted origin. -/
theorem claim10_denied_response_w :
    handleFetch ⟨"GET", "o", "?u", [("Origin", "https://evil.com")], none⟩
      ⟨[], [], [], ["evil"]⟩ ⟨200, "OK", [], "B"⟩ = Except.ok (deniedResponse, none) ∧
    deniedResponse.headers = [("content-type", "text/html")] ∧
    hget deniedResponse.headers "access-control-allow-origin" = none ∧
    deniedResponse.status = 403 ∧ deniedResponse.statusText = "Forbidden" :=
  claim10_denied_response
    ⟨"GET", "o", "?u", [("Origin", "https://evil.com")], none⟩
    ⟨[], [], [], ["evil"]⟩ ⟨200, "OK", [], "B"⟩ "u" rfl (by decide)

/-! ## `setupCORSHeaders` lookups -/

theorem str_append_empty (s : String) : s ++ "" = s := by
  cases s with
  | mk d =>
    show String.mk (d ++ []) = String.mk d
    rw [List.append_nil]

theorem setup_lookup_acao (r : RequestModel) (isPre : Bool) (hs : List (String × String)) :
    hget (setupCORSHeaders r isPre hs) "access-control-allow-origin" =
      some (match reqGet r "Origin" with | some o => o | none => "null") := by
  cases isPre with
  | false =>
    simp only [setupCORSHeaders, hsetNullable, Bool.false_eq_true, if_false]
    rw [hget_hset, if_pos (by decide)]
  | true =>
    cases hacrh : reqGet r "access-control-request-headers" with
    | none =>
      simp only [setupCORSHeaders, hsetNullable, if_true, hacrh]
      rw [hget_hdelete, if_neg (by decide), hget_hset, if_neg (by decide), hget_hset,
        if_pos (by decide)]
    | some rh =>
      cases hemp : rh.isEmpty with
      | true =>
        simp only [setupCORSHeaders, hsetNullable, if_true, hacrh, hemp]
        rw [hget_hdelete, if_neg (by decide), hget_hset, if_neg (by decide), hget_hset,
          if_pos (by decide)]
      | false =>
        simp only [setupCORSHeaders, hsetNullable, if_true, hacrh, hemp,
          Bool.false_eq_true, if_false]
        rw [hget_hdelete, if_neg (by decide), hget_hset, if_neg (by decide), hget_hset,
          if_neg (by decide), hget_hset, if_pos (by decide)]

theorem setup_pre_lookup_acam (r : RequestModel) (hs : List (String × String)) :
    hget (setupCORSHeaders r true hs) "access-control-allow-methods" =
      some (match reqGet r "access-control-request-method" with
        | some m => m | none => "null") := by
  cases hacrh : reqGet r "access-control-request-headers" with
  | none =>
    simp only [setupCORSHeaders, hsetNullable, if_true, hacrh]
    rw [hget_hdelete, if_neg (by decide), hget_hset, if_pos (by decide)]
  | some rh =>
    cases hemp : rh.isEmpty with
    | true =>
      simp only [setupCORSHeaders, hsetNullable, if_true, hacrh, hemp]
      rw [hget_hdelete, if_neg (by decide), hget_hset, if_pos (by decide)]
    | false =>
      simp only [setupCORSHeaders, hsetNullable, if_true, hacrh, hemp,
        Bool.false_eq_true, if_false]
      rw [hget_hdelete, if_neg (by decide), hget_hset, if_neg (by decide), hget_hset,
        if_pos (by decide)]

theorem setup_pre_lookup_acah (r : RequestModel) (hs : List (String × String)) (rh : String)
    (hacrh : reqGet r "access-control-request-headers" = some rh) (hne : ¬ rh = "") :
    hget (setupCORSHeaders r true hs) "access-control-allow-headers" = some rh := by
  have hemp : rh.isEmpty = false := by
    cases hr : rh.isEmpty
    · rfl
    · exact absurd ((String.isEmpty_iff rh).mp hr) hne
  simp only [setupCORSHeaders, hsetNullable, if_true, hacrh, hemp,
    Bool.false_eq_true, if_false]
  rw [hget_hdelete, if_neg (by decide), hget_hset, if_pos (by decide)]

theorem setup_pre_lookup_xcto (r : RequestModel) (hs : List (String × String)) :
    hget (setupCORSHeaders r true hs) "x-content-type-options" = none := by
  cases hacrh : reqGet r "access-control-request-headers" with
  | none =>
    simp only [setupCORSHeaders, hsetNullable, if_true, hacrh]
    rw [hget_hdelete, if_pos (by decide)]
  | some rh =>
    cases hemp : rh.isEmpty with
    | true =>
      simp only [setupCORSHeaders, hsetNullable, if_true, hacrh, hemp]
      rw [hget_hdelete, if_pos (by decide)]
    | false =>
      simp only [setupCORSHeaders, hsetNullable, if_true, hacrh, hemp,
        Bool.false_eq_true, if_false]
      rw [hget_hdelete, if_pos (by decide)]

/-- C6 (amended): an allowed OPTIONS request on the proxied path gets
status 200 with status text "OK" and no body regardless of the
upstream status; Access-Control-Allow-Methods echoes the request's
access-control-request-method value when that header is present;
Access-Control-Allow-Headers echoes access-control-request-headers
when it is present with a non-empty value (an empty value is falsy and
skipped by the code); and no X-Content-Type-Options header remains. -/
theorem claim6_preflight_response (r : RequestModel) (lists : AccessLists)
    (up : UpstreamResponse) (tgt : String)
    (hm : r.method = "OPTIONS")
    (hq : strStarts r.search "?" = true)
    (hdec : doubleDecode (strDrop1 r.search) = Except.ok tgt)
    (hallow : isAccessAllowed tgt (reqGet r "Origin") lists = true) :
    ∃ resp call, handleFetch r lists up = Except.ok (resp, call) ∧
      resp.status = 200 ∧ resp.statusText = "OK" ∧ resp.body = none ∧
      (∀ m, reqGet r "access-control-request-method" = some m →
        hget resp.headers "access-control-allow-methods" = some m) ∧
      (∀ hv, reqGet r "access-control-request-headers" = some hv → hv ≠ "" →
        hget resp.headers "access-control-allow-headers" = some hv) ∧
      hget resp.headers "x-content-type-options" = none := by
  have hpre : (r.method == "OPTIONS") = true := by
    rw [hm]
    rfl
  simp only [handleFetch, hdec, hallow, hq, hpre, if_true]
  refine ⟨_, _, rfl, rfl, rfl, rfl, ?_, ?_, ?_⟩
  · intro m hm2
    rw [hget_hset, if_neg (by decide), hget_hset, if_neg (by decide),
      setup_pre_lookup_acam, hm2]
  · intro hv hv2 hv3
    rw [hget_hset, if_neg (by decide), hget_hset, if_neg (by decide),
      setup_pre_lookup_acah r up.headers hv hv2 hv3]
  · rw [hget_hset, if_neg (by decide), hget_hset, if_neg (by decide),
      setup_pre_lookup_xcto]

/-- Witness for C6. -/
theorem claim6_preflight_response_w :
    ∃ resp call,
      handleFetch ⟨"OPTIONS", "o", "?u",
        [("access-control-request-method", "POST"),
         ("access-control-request-headers", "content-type")], none⟩
        ⟨[], [], [], []⟩ ⟨500, "ERR", [("x-content-type-options", "nosniff")], "B"⟩ =
        Except.ok (resp, call) ∧
      resp.status = 200 ∧ resp.statusText = "OK" ∧ resp.body = none ∧
      (∀ m, reqGet ⟨"OPTIONS", "o", "?u",
          [("access-control-request-method", "POST"),
           ("access-control-request-headers", "content-type")], none⟩
          "access-control-request-method" = some m →
        hget resp.headers "access-control-allow-methods" = some m) ∧
      (∀ hv, reqGet ⟨"OPTIONS", "o", "?u",
          [("access-control-request-method", "POST"),
           ("access-control-request-headers", "content-type")], none⟩
          "access-control-request-headers" = some hv → hv ≠ "" →
        hget resp.headers "access-control-allow-headers" = some hv) ∧
      hget resp.headers "x-content-type-options" = none :=
  claim6_preflight_response
    ⟨"OPTIONS", "o", "?u",
      [("access-control-request-method", "POST"),
       ("access-control-request-headers", "content-type")], none⟩
    ⟨[], [], [], []⟩ ⟨500, "ERR", [("x-content-type-options", "nosniff")], "B"⟩ "u"
    rfl rfl rfl rfl

/-- C6 as stated is false at an empty access-control-request-headers
value: the header is present on the request, but the empty string is
falsy in JavaScript, so the code never sets
Access-Control-Allow-Headers. -/
theorem claim6_preflight_response_cex :
    (match handleFetch ⟨"OPTIONS", "o", "?u",
        [("access-control-request-headers", ""),
         ("access-control-request-method", "POST")], none⟩
        ⟨[], [], [], []⟩ ⟨500, "ERR", [], "B"⟩ with
     | Except.ok (resp, _) => hget resp.headers "access-control-allow-headers"
     | _ => some "unreachable") = none ∧
    reqGet ⟨"OPTIONS", "o", "?u",
      [("access-control-request-headers", ""),
       ("access-control-request-method", "POST")], none⟩
      "access-control-request-headers" = some "" :=
  ⟨rfl, rfl⟩

/-- C7 (amended): for an allowed request with no Origin header, the
response's Access-Control-Allow-Origin is not absent or empty but the
literal string "null" (the WebIDL stringification of the JavaScript
`null` that `headers.set` receives); the informational page does omit
the Origin line. -/
theorem claim7_missing_origin (r : RequestModel) (lists : AccessLists)
    (up : UpstreamResponse) (tgt : String)
    (hdec : doubleDecode (strDrop1 r.search) = Except.ok tgt)
    (hallow : isAccessAllowed tgt (reqGet r "Origin") lists = true)
    (ho : reqGet r "Origin" = none) :
    ∃ resp call, handleFetch r lists up = Except.ok (resp, call) ∧
      hget resp.headers "access-control-allow-origin" = some "null" ∧
      (strStarts r.search "?" = false →
        resp.body = some (infoPrefix r ++ infoTail r (reqGet r "CF-Connecting-IP")
          (customState (reqGet r "x-cors-headers")))) := by
  cases hqq : strStarts r.search "?" with
  | true =>
    simp only [handleFetch, hdec, hallow, hqq, if_true]
    refine ⟨_, _, rfl, ?_, ?_⟩
    · rw [hget_hset, if_neg (by decide), hget_hset, if_neg (by decide),
        setup_lookup_acao, ho]
    · intro hfalse
      simp [hqq] at hfalse
  | false =>
    simp only [handleFetch, hdec, hallow, hqq, Bool.false_eq_true, if_false]
    refine ⟨_, _, rfl, ?_, ?_⟩
    · rw [setup_lookup_acao, ho]
    · intro _
      rw [ho]
      unfold infoPageBody
      rw [show originLine none = "" from rfl, str_append_empty]

/-- Witness for C7. -/
theorem claim7_missing_origin_w :
    ∃ resp call,
      handleFetch ⟨"GET", "o", "", [], none⟩ ⟨[], [], [], []⟩ ⟨200, "OK", [], "B"⟩ =
        Except.ok (resp, call) ∧
      hget resp.headers "access-control-allow-origin" = some "null" ∧
      (strStarts ("" : String) "?" = false →
        resp.body = some (infoPrefix ⟨"GET", "o", "", [], none⟩ ++
          infoTail ⟨"GET", "o", "", [], none⟩
            (reqGet ⟨"GET", "o", "", [], none⟩ "CF-Connecting-IP")
            (customState (reqGet ⟨"GET", "o", "", [], none⟩ "x-cors-headers")))) :=
  claim7_missing_origin ⟨"GET", "o", "", [], none⟩ ⟨[], [], [], []⟩
    ⟨200, "OK", [], "B"⟩ "" rfl rfl rfl

/-- C7 as stated is false: with no Origin header the
Access-Control-Allow-Origin header is set, to the non-empty string
"null", rather than being absent or empty. -/
theorem claim7_missing_origin_cex :
    (match handleFetch ⟨"GET", "o", "", [], none⟩ ⟨[], [], [], []⟩
        ⟨200, "OK", [], "B"⟩ with
     | Except.ok (resp, _) => hget resp.headers "access-control-allow-origin"
     | _ => none) = some "null" ∧ ("null" : String) ≠ "" :=
  ⟨rfl, by decide⟩

/-! ## `JSON.parse` inverts `JSON.stringify` on flat string objects -/

theorem skipWs_not (c : Char) (l : List Char) (h : isJsonWs c = false) :
    skipWs (c :: l) = c :: l := by
  simp [skipWs, List.dropWhile_cons, h]

theorem jsonEscChar_len (c : Char) : 1 ≤ (jsonEscChar c).length := by
  unfold jsonEscChar
  split_ifs <;> simp

theorem jsonEscList_len (s : List Char) : s.length ≤ (jsonEscList s).length := by
  induction s with
  | nil => simp [jsonEscList]
  | cons c s' ih =>
    have := jsonEscChar_len c
    simp only [jsonEscList, List.length_append, List.length_cons]
    omega

theorem hexVal_hexDigitChar (m : Nat) (h : m < 16) : hexVal (hexDigitChar m) = some m := by
  interval_cases m <;> decide

theorem parseStrBody_print (s : List Char) : ∀ (f : Nat) (rest : List Char), s.length < f →
    parseStrBody f (jsonEscList s ++ '"' :: rest) = some (s, rest) := by
  induction s with
  | nil =>
    intro f rest hf
    cases f with
    | zero => omega
    | succ f => simp [jsonEscList, parseStrBody]
  | cons c s' ih =>
    intro f rest hf
    cases f with
    | zero => omega
    | succ f =>
      have hrec := ih f rest (by simp at hf; omega)
      by_cases h1 : c = '"'
      · have hshape : jsonEscList (c :: s') ++ '"' :: rest =
            '\\' :: '"' :: (jsonEscList s' ++ '"' :: rest) := by
          simp [jsonEscList, jsonEscChar, h1]
        rw [hshape]
        simp only [parseStrBody]
        rw [h1]
        simp [escCharOf, hrec]
      · by_cases h2 : c = '\\'
        · have hshape : jsonEscList (c :: s') ++ '"' :: rest =
              '\\' :: '\\' :: (jsonEscList s' ++ '"' :: rest) := by
            simp [jsonEscList, jsonEscChar, h1, h2]
          rw [hshape]
          simp only [parseStrBody]
          rw [h2]
          simp [escCharOf, hrec]
        · by_cases h3 : c.toNat = 8
          · have hshape : jsonEscList (c :: s') ++ '"' :: rest =
                '\\' :: 'b' :: (jsonEscList s' ++ '"' :: rest) := by
              simp [jsonEscList, jsonEscChar, h1, h2, h3]
            rw [hshape]
            have hc : Char.ofNat 8 = c := by
              rw [← h3, Char.ofNat_toNat]
            simp only [parseStrBody]
            simp [escCharOf, hrec]
            exact hc
          · by_cases h4 : c.toNat = 9
            · have hshape : jsonEscList (c :: s') ++ '"' :: rest =
                  '\\' :: 't' :: (jsonEscList s' ++ '"' :: rest) := by
                simp [jsonEscList, jsonEscChar, h1, h2, h3, h4]
              rw [hshape]
              have hc : Char.ofNat 9 = c := by
                rw [← h4, Char.ofNat_toNat]
              simp only [parseStrBody]
              simp [escCharOf, hrec]
              exact hc
            · by_cases h5 : c.toNat = 10
              · have hshape : jsonEscList (c :: s') ++ '"' :: rest =
                    '\\' :: 'n' :: (jsonEscList s' ++ '"' :: rest) := by
                  simp [jsonEscList, jsonEscChar, h1, h2, h3, h4, h5]
                rw [hshape]
                have hc : Char.ofNat 10 = c := by
                  rw [← h5, Char.ofNat_toNat]
                simp only [parseStrBody]
                simp [escCharOf, hrec]
                exact hc
              · by_cases h6 : c.toNat = 12
                · have hshape : jsonEscList (c :: s') ++ '"' :: rest =
                      '\\' :: 'f' :: (jsonEscList s' ++ '"' :: rest) := by
                    simp [jsonEscList, jsonEscChar, h1, h2, h3, h4, h5, h6]
                  rw [hshape]
                  have hc : Char.ofNat 12 = c := by
                    rw [← h6, Char.ofNat_toNat]
                  simp only [parseStrBody]
                  simp [escCharOf, hrec]
                  exact hc
                · by_cases h7 : c.toNat = 13
                  · have hshape : jsonEscList (c :: s') ++ '"' :: rest =
                        '\\' :: 'r' :: (jsonEscList s' ++ '"' :: rest) := by
                      simp [jsonEscList, jsonEscChar, h1, h2, h3, h4, h5, h6, h7]
                    rw [hshape]
                    have hc : Char.ofNat 13 = c := by
                      rw [← h7, Char.ofNat_toNat]
                    simp only [parseStrBody]
                    simp [escCharOf, hrec]
                    exact hc
                  · by_cases h8 : c.toNat < 32
                    · have hshape : jsonEscList (c :: s') ++ '"' :: rest =
                          '\\' :: 'u' :: '0' :: '0' :: hexDigitChar (c.toNat / 16) ::
                            hexDigitChar (c.toNat % 16) ::
                            (jsonEscList s' ++ '"' :: rest) := by
                        simp [jsonEscList, jsonEscChar, h1, h2, h3, h4, h5, h6, h7, h8]
                      rw [hshape]
                      have e1 : hexVal '0' = some 0 := by decide
                      have e2 : hexVal (hexDigitChar (c.toNat / 16)) = some (c.toNat / 16) :=
                        hexVal_hexDigitChar _ (by omega)
                      have e3 : hexVal (hexDigitChar (c.toNat % 16)) = some (c.toNat % 16) :=
                        hexVal_hexDigitChar _ (Nat.mod_lt _ (by norm_num))
                      have hn : 4096 * 0 + 256 * 0 + 16 * (c.toNat / 16) + c.toNat % 16 =
                          c.toNat := by
                        have := Nat.div_add_mod c.toNat 16
                        omega
                      have hx : hex4 '0' '0' (hexDigitChar (c.toNat / 16))
                          (hexDigitChar (c.toNat % 16)) = some c.toNat := by
                        unfold hex4
                        rw [e1, e2, e3]
                        simp
                        omega
                      have hlow : c.toNat < 0xD800 ∨ 0xE000 ≤ c.toNat := Or.inl (by omega)
                      simp only [parseStrBody]
                      simp [hx, hrec, Char.ofNat_toNat, hlow]
                    · have hshape : jsonEscList (c :: s') ++ '"' :: rest =
                          c :: (jsonEscList s' ++ '"' :: rest) := by
                        simp [jsonEscList, jsonEscChar, h1, h2, h3, h4, h5, h6, h7, h8]
                      rw [hshape]
                      simp only [parseStrBody]
                      simp [h1, h2, h8, hrec]

theorem String_mk_data (s : String) : String.mk s.data = s := rfl

/-- `parseStrBody` at its self-measured fuel, on a printed string body. -/
theorem parseStrBody_self (s rest : List Char) :
    parseStrBody ((jsonEscList s ++ '"' :: rest).length + 1) (jsonEscList s ++ '"' :: rest) =
      some (s, rest) :=
  parseStrBody_print s _ rest (by
    have := jsonEscList_len s
    simp only [List.length_append, List.length_cons]
    omega)

/-- `parseVal` on a printed string literal followed by anything. -/
theorem parseVal_str (s : String) (f : Nat) (tail : List Char) (hf : 1 ≤ f) :
    parseVal f (jsonQuoteChars s.data ++ tail) = some (JSVal.vstr s, tail) := by
  cases f with
  | zero => omega
  | succ f =>
    have hshape : jsonQuoteChars s.data ++ tail =
        '"' :: (jsonEscList s.data ++ '"' :: tail) := by
      simp [jsonQuoteChars]
    have hws : skipWs ('"' :: (jsonEscList s.data ++ '"' :: tail)) =
        '"' :: (jsonEscList s.data ++ '"' :: tail) := skipWs_not _ _ (by decide)
    rw [hshape]
    simp only [parseVal]
    rw [hws]
    simp only [parseStrBody_self, String_mk_data, reduceIte]

/-- One member step of `parseMembers` on printed input. -/
theorem parseMembers_cons (f : Nat) (k v : String) (Y : List Char) (hf : 1 ≤ f) :
    parseMembers (f + 1) (jsonQuoteChars k.data ++ ':' :: (jsonQuoteChars v.data ++ Y)) =
      (match skipWs Y with
       | ',' :: r4 =>
         (match parseMembers f r4 with
          | some (ms, r5) => some (JSObj.ocons k (JSVal.vstr v) ms, r5)
          | none => none)
       | '\x7d' :: r4 => some (JSObj.ocons k (JSVal.vstr v) JSObj.onil, r4)
       | _ => none) := by
  have hshape : jsonQuoteChars k.data ++ ':' :: (jsonQuoteChars v.data ++ Y) =
      '"' :: (jsonEscList k.data ++ '"' :: (':' :: (jsonQuoteChars v.data ++ Y))) := by
    simp [jsonQuoteChars]
  have hws1 : skipWs ('"' :: (jsonEscList k.data ++ '"' ::
      (':' :: (jsonQuoteChars v.data ++ Y)))) =
      '"' :: (jsonEscList k.data ++ '"' :: (':' :: (jsonQuoteChars v.data ++ Y))) :=
    skipWs_not _ _ (by decide)
  have hws2 : skipWs (':' :: (jsonQuoteChars v.data ++ Y)) =
      ':' :: (jsonQuoteChars v.data ++ Y) := skipWs_not _ _ (by decide)
  have hv := parseVal_str v f Y hf
  rw [hshape]
  simp only [parseMembers]
  rw [hws1]
  simp only [parseStrBody_self, String_mk_data, hws2, hv]

/-- `parseMembers` inverts the member printer on non-empty flat string
objects, for any fuel above the member count. -/
theorem parseMembers_print (o : List (String × String)) : ∀ (k v : String) (f : Nat)
    (tail : List Char), o.length + 1 < f →
    parseMembers f (jsonMembersChars (objOfStrings ((k, v) :: o)) ++ '\x7d' :: tail) =
      some (objOfStrings ((k, v) :: o), tail) := by
  induction o with
  | nil =>
    intro k v f tail hf
    cases f with
    | zero => omega
    | succ f =>
      have hf1 : 1 ≤ f := by omega
      have hshape : jsonMembersChars (objOfStrings [(k, v)]) ++ '\x7d' :: tail =
          jsonQuoteChars k.data ++ ':' :: (jsonQuoteChars v.data ++ ('\x7d' :: tail)) := by
        simp [objOfStrings, jsonMembersChars, jsonValChars]
      rw [hshape, parseMembers_cons f k v ('\x7d' :: tail) hf1,
        skipWs_not _ _ (by decide)]
      rfl
  | cons kv o' ih =>
    intro k v f tail hf
    obtain ⟨k2, v2⟩ := kv
    cases f with
    | zero => omega
    | succ f =>
      have hf1 : 1 ≤ f := by omega
      have hshape : jsonMembersChars (objOfStrings ((k, v) :: (k2, v2) :: o')) ++
          '\x7d' :: tail =
          jsonQuoteChars k.data ++ ':' :: (jsonQuoteChars v.data ++
            (',' :: (jsonMembersChars (objOfStrings ((k2, v2) :: o')) ++ '\x7d' :: tail))) := by
        simp [objOfStrings, jsonMembersChars, jsonValChars]
      have hih := ih k2 v2 f tail (by simp only [List.length_cons] at hf; omega)
      rw [hshape, parseMembers_cons f k v _ hf1, skipWs_not _ _ (by decide)]
      simp only [hih]
      rfl

theorem membersChars_len (o : List (String × String)) :
    o.length ≤ (jsonMembersChars (objOfStrings o)).length := by
  induction o with
  | nil => simp [objOfStrings, jsonMembersChars]
  | cons kv o' ih =>
    obtain ⟨k, v⟩ := kv
    have h1 : jsonMembersChars (objOfStrings ((k, v) :: o')) =
        jsonQuoteChars k.data ++ ((':' :: jsonValChars (JSVal.vstr v)) ++
          ((match objOfStrings o' with | JSObj.onil => ([] : List Char) | _ => [',']) ++
            jsonMembersChars (objOfStrings o'))) := by
      simp [objOfStrings, jsonMembersChars]
    rw [h1]
    simp only [List.length_append, List.length_cons]
    have hq1 : 1 ≤ (jsonQuoteChars k.data).length := by simp [jsonQuoteChars]
    omega

/-- `parseVal` on an object opener followed by a quote: definitional
one-step reduction to `parseMembers`. -/
theorem parseVal_objStep (f : Nat) (T : List Char) :
    parseVal (f + 1) ('\x7b' :: '"' :: T) =
      (match parseMembers f ('"' :: T) with
       | some (ms, r3) => some (JSVal.vobj ms, r3)
       | none => none) := rfl

/-- `JSON.parse` inverts `JSON.stringify` on flat string-valued
objects. -/
theorem json_roundtrip_obj (o : List (String × String)) :
    jsonParse (jsonStringifyObj o) = some (JSVal.vobj (objOfStrings o)) := by
  cases o with
  | nil => rfl
  | cons kv o' =>
    obtain ⟨k, v⟩ := kv
    have hdata : (jsonStringifyObj ((k, v) :: o')).data =
        '\x7b' :: (jsonMembersChars (objOfStrings ((k, v) :: o')) ++ ['\x7d']) := rfl
    have hconsform : jsonMembersChars (objOfStrings ((k, v) :: o')) ++ '\x7d' ::
        ([] : List Char) =
        '"' :: (jsonEscList k.data ++ '"' :: ((':' :: jsonValChars (JSVal.vstr v)) ++
          ((match objOfStrings o' with | JSObj.onil => ([] : List Char) | _ => [',']) ++
            (jsonMembersChars (objOfStrings o') ++ ['\x7d'])))) := by
      simp [objOfStrings, jsonMembersChars, jsonQuoteChars]
    have hbig : o'.length + 2 < 2 * (jsonStringifyObj ((k, v) :: o')).data.length + 2 := by
      rw [hdata]
      have := membersChars_len ((k, v) :: o')
      simp only [List.length_cons, List.length_append] at *
      omega
    unfold jsonParse
    generalize hg : 2 * (jsonStringifyObj ((k, v) :: o')).data.length + 2 = Fuel at hbig ⊢
    cases Fuel with
    | zero => omega
    | succ F =>
      have hb1 : o'.length + 1 < F := by omega
      have hpm := parseMembers_print o' k v F [] hb1
      rw [hconsform] at hpm
      rw [hdata, hconsform, parseVal_objStep, hpm]
      rfl

/-- Assigning a duplicate-free list of bindings into a plain object in
order just appends them. -/
theorem jsObjSetAll_nodup (l : List (String × String)) : ∀ (acc : List (String × String)),
    ((acc ++ l).map Prod.fst).Nodup → jsObjSetAll acc l = acc ++ l := by
  induction l with
  | nil => intro acc _; simp [jsObjSetAll]
  | cons kv l' ih =>
    intro acc h
    have hnotmem : kv.1 ∉ acc.map Prod.fst := by
      simp only [List.map_append, List.map_cons] at h
      have hd := (List.nodup_append.mp h).2.2
      intro hmem
      exact hd hmem (by simp)
    have hany : acc.any (fun kv2 => decide (kv2.1 = kv.1)) = false := by
      rw [List.any_eq_false]
      intro kv2 hkv2
      simp only [decide_eq_true_eq]
      intro he
      exact hnotmem (he ▸ List.mem_map_of_mem Prod.fst hkv2)
    have hset1 : jsObjSet acc kv.1 kv.2 = acc ++ [kv] := by
      unfold jsObjSet
      rw [if_neg (by simp [hany])]
    have hstep : jsObjSetAll acc (kv :: l') = jsObjSetAll (acc ++ [kv]) l' := by
      simp only [jsObjSetAll, List.foldl_cons]
      rw [hset1]
    rw [hstep, ih (acc ++ [kv]) (by simpa using h)]
    simp

/-- C5: on a successful non-preflight proxied call the
`cors-received-headers` response header JSON-decodes to exactly the
upstream header mapping, and `Access-Control-Expose-Headers` is the
comma-joined upstream header names with the literal
`cors-received-headers` appended.  (`Headers.entries` yields each
name once, whence the `Nodup` hypothesis on the upstream mapping.) -/
theorem claim5_received_headers_roundtrip (r : RequestModel) (lists : AccessLists)
    (up : UpstreamResponse) (tgt : String)
    (hdec : doubleDecode (strDrop1 r.search) = Except.ok tgt)
    (hallow : isAccessAllowed tgt (reqGet r "Origin") lists = true)
    (hq : strStarts r.search "?" = true)
    (hm : r.method ≠ "OPTIONS")
    (hnd : (up.headers.map Prod.fst).Nodup) :
    ∃ resp call, handleFetch r lists up = Except.ok (resp, some call) ∧
      ∃ crh, hget resp.headers "cors-received-headers" = some crh ∧
        jsonParse crh = some (JSVal.vobj (objOfStrings up.headers)) ∧
        hget resp.headers "access-control-expose-headers" =
          some (sepJoin "," (up.headers.map (fun kv => kv.1) ++ ["cors-received-headers"])) := by
  have hall : jsObjSetAll [] up.headers = up.headers := by
    have := jsObjSetAll_nodup up.headers [] (by simpa using hnd)
    simpa using this
  simp only [handleFetch, hdec, hallow, hq, if_true]
  refine ⟨_, _, rfl, jsonStringifyObj up.headers, ?_, json_roundtrip_obj up.headers, ?_⟩
  · rw [hget_hset, if_pos rfl, hall]
  · rw [hget_hset, if_neg (by decide), hget_hset, if_pos (by decide)]

/-- Witness for C5 at a concrete upstream response with two headers. -/
theorem claim5_received_headers_roundtrip_w :
    ∃ resp call,
      handleFetch ⟨"GET", "https://w.example", "?https://t.example/a",
        [("Origin", "https://app.example")], none⟩ ⟨[], [], [], []⟩
        ⟨200, "OK", [("content-type", "text/plain"), ("x-it", "1")], "B"⟩ =
        Except.ok (resp, some call) ∧
      ∃ crh, hget resp.headers "cors-received-headers" = some crh ∧
        jsonParse crh = some (JSVal.vobj (objOfStrings
          [("content-type", "text/plain"), ("x-it", "1")])) ∧
        hget resp.headers "access-control-expose-headers" =
          some (sepJoin ","
            ([("content-type", "text/plain"), ("x-it", "1")].map
              (fun kv => kv.1) ++ ["cors-received-headers"])) :=
  claim5_received_headers_roundtrip
    ⟨"GET", "https://w.example", "?https://t.example/a",
      [("Origin", "https://app.example")], none⟩ ⟨[], [], [], []⟩
    ⟨200, "OK", [("content-type", "text/plain"), ("x-it", "1")], "B"⟩
    "https://t.example/a" rfl rfl rfl (by decide) (by decide)
